import Mathlib

/-! mysql-check: metrics gathering, status-row classification and TLS profile

A shallow embedding of `mysql.go`, `main.go` and `cert.go`.

* Go maps (`map[string]...`) are association lists with distinct keys; a write
  to an existing key replaces the value in place, a write to a new key appends.
  Go leaves the order of a `range` over a map unspecified: the embedding ranges
  in list order, and the theorems speak through lookups, membership and lengths.
* A Go result pair `(value, error)` is a pair of `Option`s, `none` being `nil`.
* Library calls the repository does not define (`strings.ToLower`,
  `mysql.ParseDSN`, `Config.FormatDSN`, `sql.Open`, the `SHOW GLOBAL STATUS`
  query, `os.ReadFile`, PEM parsing, `tls.LoadX509KeyPair`) are fields of a
  `World`; every theorem holds for every `World`.
* Each call that leaves the process is recorded in a trace of `Event`s;
  printing to standard output and `rows.Close()` are left out.
-/

namespace MysqlCheck

deriving instance DecidableEq for Except

/-! ## Association lists standing for Go maps -/

/-- Map read `m[k]` with the comma-ok result. -/
def mapGet {β : Type} (m : List (String × β)) (k : String) : Option β :=
  match m with
  | [] => none
  | (k', v) :: rest => if k' = k then some v else mapGet rest k

/-- Map write `m[k] = v`. -/
def mapSet {β : Type} (m : List (String × β)) (k : String) (v : β) : List (String × β) :=
  match m with
  | [] => [(k, v)]
  | (k', v') :: rest => if k' = k then (k', v) :: rest else (k', v') :: mapSet rest k v

/-- Keys of a map. -/
def mapKeys {β : Type} (m : List (String × β)) : List String :=
  m.map Prod.fst

/-! ## The prometheus client model (`dto`) -/

/-- The two members of `dto.MetricType` the check uses. -/
inductive MetricType where
  | COUNTER
  | GAUGE
deriving DecidableEq

/-- Go `dto.LabelPair`. -/
structure LabelPair where
  Name : String
  Value : String
deriving DecidableEq

/-- Go `dto.Metric`. `Gauge` and `Counter` hold the `float64` value of the
observation when set; the values the check stores are all integral, so the
float is represented by the integer it equals. -/
structure Metric where
  Label : List LabelPair
  Gauge : Option Int
  Counter : Option Int
deriving DecidableEq

/-- Go `dto.MetricFamily` (`Typ` is the field `Type`). -/
structure MetricFamily where
  Name : String
  Help : String
  Typ : MetricType
  Metric : List Metric
deriving DecidableEq

/-- Go `MetricFamilyMap`: metric family name to list of observations. -/
abbrev MetricFamilyMap := List (String × List Metric)

/-- Go `serverNameLabel`. -/
def serverNameLabel : String := "server"

/-- Go `getFamilyDefinitions`. -/
def getFamilyDefinitions : List (String × MetricFamily) :=
  [ ("uptime",
      { Name := "uptime",
        Help := "The number of seconds that the server has been up",
        Typ := MetricType.COUNTER, Metric := [] }),
    ("connection_errors_internal",
      { Name := "connection_errors_internal",
        Help := "The number of connections refused due to internal errors in the server, such as failure to start a new thread or an out-of-memory condition.",
        Typ := MetricType.COUNTER, Metric := [] }),
    ("connection_errors_max_connections",
      { Name := "connection_errors_max_connections",
        Help := "The number of connections refused because the server max_connections limit was reached.",
        Typ := MetricType.COUNTER, Metric := [] }),
    ("slow_queries",
      { Name := "slow_queries",
        Help := "The number of queries that have taken more than long_query_time seconds. ",
        Typ := MetricType.COUNTER, Metric := [] }),
    ("queries",
      { Name := "queries",
        Help := "The number of statements executed by the server.",
        Typ := MetricType.COUNTER, Metric := [] }),
    ("innodb_data_fsyncs",
      { Name := "innodb_data_fsyncs",
        Help := "The number of fsync() operations so far.",
        Typ := MetricType.COUNTER, Metric := [] }),
    ("innodb_row_lock_waits",
      { Name := "innodb_row_lock_waits",
        Help := "The number of times operations on InnoDB tables had to wait for a row lock.",
        Typ := MetricType.COUNTER, Metric := [] }),
    ("innodb_row_lock_current_waits",
      { Name := "innodb_row_lock_current_waits",
        Help := "The number of row locks currently being waited for by operations on InnoDB tables.",
        Typ := MetricType.GAUGE, Metric := [] }),
    ("table_locks_waited",
      { Name := "table_locks_waited",
        Help := "The number of times that a request for a table lock could not be granted immediately and a wait was needed.",
        Typ := MetricType.COUNTER, Metric := [] }) ]

/-! ## `strconv.ParseInt(s, 10, 64)` and `float64(i)` -/

/-- The two errors of `strconv`: a malformed numeral and a value out of range. -/
inductive NumError where
  | malformed
  | outOfRange
deriving DecidableEq

/-- Value of a decimal digit, `none` for any other character. -/
def digitVal (c : Char) : Option Nat :=
  if 48 ≤ c.toNat ∧ c.toNat ≤ 57 then some (c.toNat - 48) else none

/-- The digit loop of `strconv.ParseUint` in base 10 with 64 bits: a character
that is no digit is malformed; `n >= cutoff` and a sum past `maxVal` are out
of range. -/
def parseUintLoop (cs : List Char) (n : Nat) : Except NumError Nat :=
  match cs with
  | [] => Except.ok n
  | c :: rest =>
    match digitVal c with
    | none => Except.error NumError.malformed
    | some d =>
      if n ≥ (2 ^ 64 - 1) / 10 + 1 then Except.error NumError.outOfRange
      else if n * 10 + d > 2 ^ 64 - 1 then Except.error NumError.outOfRange
      else parseUintLoop rest (n * 10 + d)

/-- Go `strconv.ParseUint(s, 10, 64)`. -/
def ParseUint (cs : List Char) : Except NumError Nat :=
  match cs with
  | [] => Except.error NumError.malformed
  | _ :: _ => parseUintLoop cs 0

/-- Go `strconv.ParseInt(s, 10, 64)`: an optional sign, then `ParseUint`, then
the signed range check. -/
def ParseInt (s : String) : Except NumError Int :=
  match s.data with
  | [] => Except.error NumError.malformed
  | c :: rest =>
    let neg := decide (c = '-')
    let body := if c = '+' ∨ c = '-' then rest else c :: rest
    match ParseUint body with
    | Except.error e => Except.error e
    | Except.ok un =>
      if neg = false ∧ un ≥ 2 ^ 63 then Except.error NumError.outOfRange
      else if neg = true ∧ un > 2 ^ 63 then Except.error NumError.outOfRange
      else Except.ok (if neg then -(un : Int) else (un : Int))

/-- The `float64` nearest to a natural number below `2 ^ 64`, ties to even,
with a 53-bit significand. From `2 ^ 53` on, `shift` is the number of low bits
that do not fit the significand. -/
def float64OfNat (a : Nat) : Nat :=
  if a < 2 ^ 53 then a
  else
    let shift := (List.range 11).countP (fun k => decide (2 ^ (53 + k) ≤ a))
    let q := a / 2 ^ shift
    let r := a % 2 ^ shift
    let half := 2 ^ (shift - 1)
    let q1 := if r > half ∨ (r = half ∧ q % 2 = 1) then q + 1 else q
    q1 * 2 ^ shift

/-- Go conversion `float64(i)` of an `int64`, as the integer the result equals. -/
def float64 (i : Int) : Int :=
  if i < 0 then -((float64OfNat i.natAbs : Nat) : Int) else ((float64OfNat i.natAbs : Nat) : Int)

/-! ## The outside world -/

/-- The fields of the driver's `mysql.Config` that the check reads or writes,
with the user, password and network kept for `FormatDSN`. `Timeout` is a
`time.Duration` in nanoseconds. -/
structure MysqlConfig where
  User : String
  Passwd : String
  Net : String
  Addr : String
  DBName : String
  Timeout : Int
deriving DecidableEq

/-- Go `*sql.DB`: a handle on the data source name it was opened with. -/
structure DB where
  dsn : String
deriving DecidableEq

/-- Go `*x509.CertPool`: the certificates it holds. -/
abbrev CertPool := List String

/-- Go `tls.Certificate`: a loaded certificate and key. -/
structure Certificate where
  cert : String
  key : String
deriving DecidableEq

/-- Library calls. `Query n db` is the outcome of `SHOW GLOBAL STATUS;` on `db`
as the `n`-th server of the run: an error, or the rows that `rows.Next()`
delivers, each of which scans into a key and a value or fails to scan.
`RowsErr n db` is what `rows.Err()` holds once `rows.Next()` has returned
false: `some err` when the iteration was cut short by an error, the rows of
`Query` being those delivered before it. -/
structure World where
  ToLower : String → String
  ParseDSN : String → Except String MysqlConfig
  FormatDSN : MysqlConfig → String
  Open : String → Except String DB
  Query : Nat → DB → Except String (List (Except String (String × String)))
  RowsErr : Nat → DB → Option String
  ReadFile : String → Except String String
  CertsFromPEM : String → List String
  LoadX509KeyPair : String → String → Except String Certificate

/-- Calls that reach outside the process, tagged for the server loop with
the position of the server in the list. -/
inductive Event where
  | parsedDSN (i : Nat) (server : String)
  | openedDB (i : Nat) (dsn : String)
  | queried (i : Nat) (dsn : String)
  | readFile (path : String)
  | loadedKeyPair (cert : String) (key : String)
deriving DecidableEq

/-! ## `mysql.go` -/

/-- The three `fmt.Errorf` sites of `fromServerStatusVars`. -/
inductive StatusError where
  | gettingStatus (err : String)
  | scanningResults (err : String)
  | notInteger (key : String) (val : String)
deriving DecidableEq

/-- The four `fmt.Errorf` sites of `GatherMetrics`. -/
inductive GatherError where
  | parsingDSN (err : String)
  | openingConnection (err : String)
  | collecting (addr : String) (dbName : String) (err : StatusError)
  | unspecifiedPoint (groupName : String)
deriving DecidableEq

/-- The names of the first `case` group of the `switch` in
`fromServerStatusVars`, which fall through to the counter branch. -/
def counterCases : List String :=
  [ "uptime", "connection_errors_internal", "connection_errors_max_connections",
    "slow_queries", "queries", "innodb_data_fsyncs", "innodb_row_lock_waits",
    "table_locks_waited" ]

/-- The name of the second `case` of the `switch`, the gauge branch. -/
def gaugeCase : String := "innodb_row_lock_current_waits"

/-- The body of the `for rows.Next()` loop of `fromServerStatusVars` after a
successful `Scan`: the `switch` on the lower-cased key. The result is the
updated map, or the error the function returns. -/
def statusRow (w : World) (metrics : MetricFamilyMap) (key val : String) :
    Except StatusError MetricFamilyMap :=
  let rowKey := w.ToLower key
  if rowKey ∈ counterCases then
    match ParseInt val with
    | Except.error _ => Except.error (StatusError.notInteger key val)
    | Except.ok i =>
      let fVal := float64 i
      Except.ok (mapSet metrics rowKey [{ Label := [], Gauge := none, Counter := some fVal }])
  else if rowKey = gaugeCase then
    match ParseInt val with
    | Except.error _ => Except.error (StatusError.notInteger key val)
    | Except.ok i =>
      let fVal := float64 i
      Except.ok (mapSet metrics rowKey [{ Label := [], Gauge := some fVal, Counter := none }])
  else Except.ok metrics

/-- The `for rows.Next()` loop of `fromServerStatusVars`. When `rows.Next()`
returns false the function returns the map and a nil error; it does not call
`rows.Err()`, so `RowsErr` is not read. -/
def scanRows (w : World) (rows : List (Except String (String × String)))
    (metrics : MetricFamilyMap) : Option MetricFamilyMap × Option StatusError :=
  match rows with
  | [] => (some metrics, none)
  | Except.error err :: _ => (none, some (StatusError.scanningResults err))
  | Except.ok (key, val) :: rest =>
    match statusRow w metrics key val with
    | Except.error e => (none, some e)
    | Except.ok metrics1 => scanRows w rest metrics1

/-- Go `fromServerStatusVars`, for the `n`-th server of the run. -/
def fromServerStatusVars (w : World) (n : Nat) (db : DB) :
    Option MetricFamilyMap × Option StatusError :=
  match w.Query n db with
  | Except.error err => (none, some (StatusError.gettingStatus err))
  | Except.ok rows => scanRows w rows []

/-- Go `tagAll`: appends the tags to the labels of every observation. -/
def tagAll (families : MetricFamilyMap) (tags : List LabelPair) : MetricFamilyMap :=
  families.map (fun family =>
    (family.1, family.2.map (fun metric => { metric with Label := metric.Label ++ tags })))

/-- Five seconds as a `time.Duration`. -/
def fiveSeconds : Int := 5 * 1000000000

/-- The statement `if serverCfg.Timeout == 0 { serverCfg.Timeout = time.Second * 5 }`
of `GatherMetrics`. -/
def withDefaultTimeout (serverCfg : MysqlConfig) : MysqlConfig :=
  if serverCfg.Timeout = 0 then { serverCfg with Timeout := fiveSeconds } else serverCfg

/-- The body of the first loop of `GatherMetrics` for the server at position
`i`: the tagged results to append to `metrics`, or the error to return, with
the calls made. -/
def gatherServer (w : World) (i : Nat) (server : String) :
    Except GatherError MetricFamilyMap × List Event :=
  match w.ParseDSN server with
  | Except.error err => (Except.error (GatherError.parsingDSN err), [Event.parsedDSN i server])
  | Except.ok parsed =>
    let serverCfg := withDefaultTimeout parsed
    let serverName := serverCfg.Addr
    let serverLabel : LabelPair := { Name := serverNameLabel, Value := serverName }
    let dsn := w.FormatDSN serverCfg
    match w.Open dsn with
    | Except.error err =>
      (Except.error (GatherError.openingConnection err),
        [Event.parsedDSN i server, Event.openedDB i dsn])
    | Except.ok db =>
      match fromServerStatusVars w i db with
      | (_, some err) =>
        (Except.error (GatherError.collecting serverCfg.Addr serverCfg.DBName err),
          [Event.parsedDSN i server, Event.openedDB i dsn, Event.queried i db.dsn])
      | (results, none) =>
        (Except.ok (tagAll (results.getD []) [serverLabel]),
          [Event.parsedDSN i server, Event.openedDB i dsn, Event.queried i db.dsn])

/-- The first loop of `GatherMetrics`, from position `i` on: the list `metrics`
gains one map per server, and the first error ends the loop. -/
def gatherLoop (w : World) (i : Nat) (servers : List String) :
    Except GatherError (List MetricFamilyMap) × List Event :=
  match servers with
  | [] => (Except.ok [], [])
  | server :: rest =>
    match gatherServer w i server with
    | (Except.error e, tr) => (Except.error e, tr)
    | (Except.ok results, tr) =>
      match gatherLoop w (i + 1) rest with
      | (Except.error e, tr1) => (Except.error e, tr ++ tr1)
      | (Except.ok metrics, tr1) => (Except.ok (results :: metrics), tr ++ tr1)

/-- The inner loop of the second loop of `GatherMetrics`, over one group. -/
def coalesceGroup (metricFamilies : List (String × MetricFamily)) (group : MetricFamilyMap) :
    Except GatherError (List (String × MetricFamily)) :=
  match group with
  | [] => Except.ok metricFamilies
  | (groupName, groupPoints) :: rest =>
    match mapGet metricFamilies groupName with
    | none => Except.error (GatherError.unspecifiedPoint groupName)
    | some family =>
      coalesceGroup
        (mapSet metricFamilies groupName { family with Metric := family.Metric ++ groupPoints })
        rest

/-- The second loop of `GatherMetrics`, over all groups. -/
def coalesce (metricFamilies : List (String × MetricFamily)) (metrics : List MetricFamilyMap) :
    Except GatherError (List (String × MetricFamily)) :=
  match metrics with
  | [] => Except.ok metricFamilies
  | group :: rest =>
    match coalesceGroup metricFamilies group with
    | Except.error e => Except.error e
    | Except.ok metricFamilies1 => coalesce metricFamilies1 rest

/-- What a run of `GatherMetrics` returns and does. -/
structure GatherResult where
  families : Option (List MetricFamily)
  err : Option GatherError
  trace : List Event
deriving DecidableEq

/-- Go `GatherMetrics(servers)`. `cfgServers` is the package variable
`cfg.Servers`, which the first loop ranges over; the argument `servers` is not
read by the body. -/
def GatherMetrics (w : World) (cfgServers : List String) (servers : List String) : GatherResult :=
  match gatherLoop w 0 cfgServers with
  | (Except.error e, tr) => { families := none, err := some e, trace := tr }
  | (Except.ok metrics, tr) =>
    match coalesce getFamilyDefinitions metrics with
    | Except.error e => { families := none, err := some e, trace := tr }
    | Except.ok metricFamilies =>
      { families := some (metricFamilies.map Prod.snd), err := none, trace := tr }

/-! ## `cert.go` -/

/-- Go `tls.Config`, the fields `TLSConfig` sets. -/
structure TLSConfigValue where
  InsecureSkipVerify : Bool
  RootCAs : Option CertPool
  Certificates : List Certificate
deriving DecidableEq

/-- Go `CustomTLS`. -/
structure CustomTLS where
  TLSCA : String
  TLSCert : String
  TLSKey : String
  InsecureSkipVerify : Bool
deriving DecidableEq

/-- The errors of `cert.go`. -/
inductive TLSError where
  | couldNotReadCA (err : String)
  | failedToLoadCA
  | keyPair (err : String)
deriving DecidableEq

/-- Go `loadPool`. -/
def loadPool (w : World) (ca : String) : (Option CertPool × Option TLSError) × List Event :=
  match w.ReadFile ca with
  | Except.error err => ((none, some (TLSError.couldNotReadCA err)), [Event.readFile ca])
  | Except.ok pem =>
    if (w.CertsFromPEM pem).isEmpty then ((none, some TLSError.failedToLoadCA), [Event.readFile ca])
    else ((some (w.CertsFromPEM pem), none), [Event.readFile ca])

/-- Go `CustomTLS.TLSConfig`. -/
def CustomTLS.TLSConfig (w : World) (c : CustomTLS) :
    (Option TLSConfigValue × Option TLSError) × List Event :=
  if c.TLSCA = "" ∧ c.TLSCert = "" ∧ c.TLSKey = "" then ((none, none), [])
  else
    let cfg0 : TLSConfigValue :=
      { InsecureSkipVerify := c.InsecureSkipVerify, RootCAs := none, Certificates := [] }
    let afterCA : Except TLSError TLSConfigValue × List Event :=
      if c.TLSCA ≠ "" then
        match loadPool w c.TLSCA with
        | ((_, some err), tr) => (Except.error err, tr)
        | ((pool, none), tr) => (Except.ok { cfg0 with RootCAs := pool }, tr)
      else (Except.ok cfg0, [])
    match afterCA with
    | (Except.error err, tr) => ((none, some err), tr)
    | (Except.ok cfg1, tr) =>
      if c.TLSCert ≠ "" ∧ c.TLSKey ≠ "" then
        match w.LoadX509KeyPair c.TLSCert c.TLSKey with
        | Except.error err =>
          ((none, some (TLSError.keyPair err)), tr ++ [Event.loadedKeyPair c.TLSCert c.TLSKey])
        | Except.ok cert =>
          ((some { cfg1 with Certificates := [cert] }, none),
            tr ++ [Event.loadedKeyPair c.TLSCert c.TLSKey])
      else ((some cfg1, none), tr)

/-! ## `main.go` -/

/-- The package variable `cfg`: the fields of `Config` the check uses. -/
structure Config extends CustomTLS where
  Servers : List String
  CustomTLSConfig : Option TLSConfigValue
deriving DecidableEq

/-- The constant `sensu.CheckStateOK`. -/
def CheckStateOK : Int := 0

/-- The constant `sensu.CheckStateCritical`. -/
def CheckStateCritical : Int := 2

/-- The errors of `checkArgs`. -/
inductive CheckError where
  | expectedServer
  | invalidTLS (err : TLSError)
deriving DecidableEq

/-- The text of a `checkArgs` error where the source fixes it whole. -/
def CheckError.text : CheckError → Option String
  | CheckError.expectedServer => some "expected at least one server"
  | CheckError.invalidTLS _ => none

/-- What `checkArgs` returns and does: the state, the error, the package
variable `cfg` afterwards and the calls made. -/
structure CheckResult where
  state : Int
  err : Option CheckError
  cfg : Config
  trace : List Event
deriving DecidableEq

/-- Go `checkArgs`; the event argument is not read. -/
def checkArgs (w : World) (cfg : Config) : CheckResult :=
  if cfg.Servers.length = 0 then
    { state := CheckStateCritical, err := some CheckError.expectedServer, cfg := cfg, trace := [] }
  else
    match CustomTLS.TLSConfig w cfg.toCustomTLS with
    | ((_, some err), tr) =>
      { state := CheckStateCritical, err := some (CheckError.invalidTLS err), cfg := cfg,
        trace := tr }
    | ((custom, none), tr) =>
      { state := CheckStateOK, err := none, cfg := { cfg with CustomTLSConfig := custom },
        trace := tr }

/-! ## Vocabulary of the specification -/

/-- The nine recognized status-variable names. -/
def recognizedNames : List String :=
  [ "uptime", "connection_errors_internal", "connection_errors_max_connections",
    "slow_queries", "queries", "innodb_data_fsyncs", "innodb_row_lock_waits",
    "innodb_row_lock_current_waits", "table_locks_waited" ]

/-- A non-negative base-10 integer numeral: one or more of the digits 0 to 9. -/
def isDecimalNumeral (s : String) : Bool :=
  !s.data.isEmpty && s.data.all Char.isDigit

/-- The number a string of digits denotes. -/
def decimalValue (s : String) : Nat :=
  s.data.foldl (fun a c => a * 10 + (c.toNat - 48)) 0

/-- A base-10 integer numeral: an optional sign followed by one or more digits. -/
def isBase10Integer (s : String) : Bool :=
  match s.data with
  | [] => false
  | c :: rest =>
    if c = '+' ∨ c = '-' then !rest.isEmpty && rest.all Char.isDigit
    else (c :: rest).all Char.isDigit

/-- An observation of the given kind and value that carries no label. -/
def observation (t : MetricType) (v : Int) : Metric :=
  match t with
  | MetricType.COUNTER => { Label := [], Gauge := none, Counter := some v }
  | MetricType.GAUGE => { Label := [], Gauge := some v, Counter := none }

/-- The kind `getFamilyDefinitions` declares for a family name. -/
def declaredKind (name : String) : Option MetricType :=
  (mapGet getFamilyDefinitions name).map MetricFamily.Typ

/-- Maps the row loop builds: distinct recognized keys, each holding one
unlabelled observation of the declared kind. -/
def StatusMap (m : MetricFamilyMap) : Prop :=
  (mapKeys m).Nodup ∧
    ∀ k pts, mapGet m k = some pts → ∃ t v, declaredKind k = some t ∧ pts = [observation t v]

/-- The resolved address and the collected map of the server at position `i`
when its DSN parses, its connection opens and its status collection succeeds;
`none` when one of the three fails. -/
def collected (w : World) (i : Nat) (server : String) : Option (String × MetricFamilyMap) :=
  match w.ParseDSN server with
  | Except.error _ => none
  | Except.ok parsed =>
    match w.Open (w.FormatDSN (withDefaultTimeout parsed)) with
    | Except.error _ => none
    | Except.ok db =>
      match fromServerStatusVars w i db with
      | (some m, none) => some (parsed.Addr, m)
      | _ => none

/-- The observations the server at position `i` contributes to a family: what
it collected under that name, each with the label server = resolved address
appended. -/
def contribution (w : World) (i : Nat) (server : String) (name : String) : List Metric :=
  match collected w i server with
  | none => []
  | some (addr, m) =>
    match mapGet m name with
    | none => []
    | some pts =>
      pts.map (fun p => { p with Label := p.Label ++ [{ Name := "server", Value := addr }] })

/-- The error the server at position `i` makes `GatherMetrics` return, if any. -/
def serverError (w : World) (i : Nat) (server : String) : Option GatherError :=
  match (gatherServer w i server).1 with
  | Except.error e => some e
  | Except.ok _ => none

/-- The position in the server list of the server an event belongs to. -/
def Event.position : Event → Option Nat
  | Event.parsedDSN i _ => some i
  | Event.openedDB i _ => some i
  | Event.queried i _ => some i
  | Event.readFile _ => none
  | Event.loadedKeyPair _ _ => none

/-- Events that open or use a database connection. -/
def Event.isConnection : Event → Bool
  | Event.openedDB _ _ => true
  | Event.queried _ _ => true
  | _ => false

/-- The points a group holds under a name, in the order the group is ranged over. -/
def groupPointsOf (group : MetricFamilyMap) (name : String) : List Metric :=
  match group with
  | [] => []
  | (k, pts) :: rest =>
    if k = name then pts ++ groupPointsOf rest name else groupPointsOf rest name

/-- The map the server at position `p.1` adds to `metrics`: what it collected,
tagged with its resolved address. -/
def taggedResults (w : World) (p : Nat × String) : MetricFamilyMap :=
  match collected w p.1 p.2 with
  | none => []
  | some (addr, m) => tagAll m [{ Name := "server", Value := addr }]

/-! ## Concrete worlds -/

/-- ASCII lower-casing; `strings.ToLower` agrees with it on ASCII names. -/
def asciiLower (s : String) : String :=
  String.mk (s.data.map Char.toLower)

/-- A world given by tables. A server entry is a DSN, the address it resolves
to and the rows its status query returns; a DSN that is not listed does not
parse. The formatted DSN of a configuration is its address, and a query on an
address that is not listed fails. A file entry is a path and its content; the
content `PEM` holds one certificate, any other content none. No iteration
over rows is cut short. -/
def demoWorld (servers : List (String × String × List (String × String)))
    (files : List (String × String)) : World :=
  { ToLower := asciiLower
    ParseDSN := fun s =>
      match mapGet servers s with
      | some (addr, _) =>
        Except.ok
          { User := "root", Passwd := "", Net := "tcp", Addr := addr, DBName := "mysql",
            Timeout := 0 }
      | none => Except.error "invalid DSN"
    FormatDSN := fun c => c.Addr
    Open := fun dsn => Except.ok { dsn := dsn }
    Query := fun _ db =>
      match mapGet (servers.map Prod.snd) db.dsn with
      | some rows => Except.ok (rows.map Except.ok)
      | none => Except.error "connection refused"
    RowsErr := fun _ _ => none
    ReadFile := fun path =>
      match mapGet files path with
      | some content => Except.ok content
      | none => Except.error "no such file"
    CertsFromPEM := fun pem => if pem = "PEM" then ["certificate"] else []
    LoadX509KeyPair := fun cert key =>
      match mapGet files cert, mapGet files key with
      | some c, some k => Except.ok { cert := c, key := k }
      | _, _ => Except.error "no such file" }

/-- Fifty status variables the check does not recognize. -/
def unrelatedRows : List (String × String) :=
  (List.range 50).map (fun n => (String.mk ('C' :: 'o' :: 'm' :: '_' :: List.replicate n 'x'), "7"))

/-- One server at `localhost:3306` reporting Uptime=100, Queries=42 and fifty
unrelated variables. -/
def oneServerWorld : World :=
  demoWorld
    [("root@tcp(localhost)/mysql", "localhost:3306",
      ("Uptime", "100") :: ("Queries", "42") :: unrelatedRows)] []

/-- Two servers reporting Uptime=10 and Uptime=20. -/
def twoServerWorld : World :=
  demoWorld
    [("root@tcp(db1)/mysql", "db1:3306", [("Uptime", "10"), ("Com_select", "3")]),
     ("root@tcp(db2)/mysql", "db2:3306", [("Uptime", "20")])] []

/-- One server at `localhost:3306` reporting all nine recognized variables. -/
def allNineWorld : World :=
  demoWorld
    [("root@tcp(localhost)/mysql", "localhost:3306",
      [("Uptime", "100"), ("Connection_errors_internal", "0"),
       ("Connection_errors_max_connections", "1"), ("Slow_queries", "2"), ("Queries", "42"),
       ("Innodb_data_fsyncs", "3"), ("Innodb_row_lock_waits", "4"),
       ("Innodb_row_lock_current_waits", "5"), ("Table_locks_waited", "6")])] []

/-- A server whose uptime is not a number, after a valid row. -/
def badValueWorld : World :=
  demoWorld
    [("root@tcp(db1)/mysql", "db1:3306", [("Queries", "42"), ("Uptime", "abc")]),
     ("root@tcp(db2)/mysql", "db2:3306", [("Uptime", "20")])] []

/-- A world with a CA file that loads and a client certificate file. -/
def tlsWorld : World :=
  demoWorld [] [("ca.pem", "PEM"), ("client.pem", "CERT"), ("client-key.pem", "KEY")]

/-- Two servers. The status query of the first is cut short after its row
Uptime=10: `rows.Next()` returns false and `rows.Err()` holds the error. The
second reports Uptime=20. -/
def interruptedWorld : World :=
  { demoWorld
      [("root@tcp(db1)/mysql", "db1:3306", [("Uptime", "10")]),
       ("root@tcp(db2)/mysql", "db2:3306", [("Uptime", "20")])] [] with
    RowsErr := fun n _ => if n = 0 then some "unexpected EOF" else none }

/-! ## Lemmas on maps -/

theorem mapGet_mapSet_self {β : Type} (m : List (String × β)) (k : String) (v : β) :
    mapGet (mapSet m k v) k = some v := by
  induction m with
  | nil => simp [mapSet, mapGet]
  | cons hd tl ih =>
    obtain ⟨k', v'⟩ := hd
    by_cases h : k' = k
    · simp [mapSet, mapGet, h]
    · simp [mapSet, mapGet, h, ih]

theorem mapGet_mapSet_ne {β : Type} (m : List (String × β)) (k k1 : String) (v : β)
    (hne : k1 ≠ k) : mapGet (mapSet m k v) k1 = mapGet m k1 := by
  induction m with
  | nil =>
    have : ¬ k = k1 := fun h => hne h.symm
    simp [mapSet, mapGet, this]
  | cons hd tl ih =>
    obtain ⟨k', v'⟩ := hd
    by_cases h : k' = k
    · subst h
      have : ¬ k' = k1 := fun h => hne h.symm
      simp [mapSet, mapGet, this]
    · by_cases h1 : k' = k1
      · subst h1
        simp [mapSet, mapGet, h]
      · simp [mapSet, mapGet, h, h1, ih]

theorem mapGet_eq_none_iff {β : Type} (m : List (String × β)) (k : String) :
    mapGet m k = none ↔ k ∉ mapKeys m := by
  induction m with
  | nil => simp [mapGet, mapKeys]
  | cons hd tl ih =>
    obtain ⟨k', v'⟩ := hd
    by_cases h : k' = k
    · simp [mapGet, mapKeys, h]
    · have h2 : ¬ k = k' := fun e => h e.symm
      simp only [mapKeys] at ih
      simp [mapGet, mapKeys, h, h2, ih]

theorem mapGet_isSome_of_mem {β : Type} (m : List (String × β)) (k : String)
    (h : k ∈ mapKeys m) : ∃ v, mapGet m k = some v := by
  cases hg : mapGet m k with
  | none => exact absurd h ((mapGet_eq_none_iff m k).mp hg)
  | some v => exact ⟨v, rfl⟩

theorem mapKeys_mapSet_of_mem {β : Type} (m : List (String × β)) (k : String) (v : β)
    (h : k ∈ mapKeys m) : mapKeys (mapSet m k v) = mapKeys m := by
  induction m with
  | nil => simp [mapKeys] at h
  | cons hd tl ih =>
    obtain ⟨k', v'⟩ := hd
    by_cases hk : k' = k
    · simp [mapSet, mapKeys, hk]
    · have h2 : ¬ k = k' := fun e => hk e.symm
      simp only [mapKeys, List.map_cons, List.mem_cons, h2, false_or] at h
      simp only [mapKeys] at ih
      simp [mapSet, mapKeys, hk, ih h]

theorem mem_mapKeys_mapSet {β : Type} (m : List (String × β)) (k k1 : String) (v : β) :
    k1 ∈ mapKeys (mapSet m k v) ↔ k1 = k ∨ k1 ∈ mapKeys m := by
  induction m with
  | nil => simp [mapSet, mapKeys]
  | cons hd tl ih =>
    obtain ⟨k', v'⟩ := hd
    simp only [mapKeys] at ih
    by_cases hk : k' = k
    · subst hk
      simp [mapSet, mapKeys]
    · simp only [mapSet, mapKeys, hk, if_false, List.map_cons, List.mem_cons, ih]
      tauto

theorem mapKeys_nodup_mapSet {β : Type} (m : List (String × β)) (k : String) (v : β)
    (h : (mapKeys m).Nodup) : (mapKeys (mapSet m k v)).Nodup := by
  induction m with
  | nil => simp [mapSet, mapKeys]
  | cons hd tl ih =>
    obtain ⟨k', v'⟩ := hd
    by_cases hk : k' = k
    · simpa [mapSet, mapKeys, hk] using h
    · simp only [mapKeys, List.map_cons, List.nodup_cons] at h
      have hmem := mem_mapKeys_mapSet tl k k' v
      simp only [mapKeys] at ih hmem
      simp only [mapSet, hk, if_false, mapKeys, List.map_cons, List.nodup_cons]
      refine ⟨fun hc => ?_, ih h.2⟩
      rcases hmem.mp hc with e | e
      · exact hk e
      · exact h.1 e

/-! ## Lemmas on `ParseInt` and `float64` -/

theorem digitVal_eq_some_iff (c : Char) :
    (∃ d, digitVal c = some d) ↔ c.isDigit = true := by
  unfold digitVal Char.isDigit Char.toNat
  have h1 : (48 : UInt32) ≤ c.val ↔ 48 ≤ c.val.toNat := by
    rw [UInt32.le_def]; rfl
  have h2 : c.val ≤ (57 : UInt32) ↔ c.val.toNat ≤ 57 := by
    rw [UInt32.le_def]; rfl
  by_cases h : 48 ≤ c.val.toNat ∧ c.val.toNat ≤ 57
  · simp [h, h1, h2, GE.ge]
  · simp only [h, if_false, GE.ge, Bool.and_eq_true, decide_eq_true_eq, h1, h2]
    simp

theorem digitVal_of_isDigit (c : Char) (h : c.isDigit = true) :
    digitVal c = some (c.toNat - 48) := by
  obtain ⟨d, hd⟩ := (digitVal_eq_some_iff c).mpr h
  unfold digitVal at hd ⊢
  split at hd
  · rename_i hc; simp [hc]
  · simp at hd

theorem digitVal_le (c : Char) (d : Nat) (h : digitVal c = some d) : d ≤ 9 := by
  unfold digitVal at h
  split at h
  · simp at h; omega
  · simp at h

/-- On a string of digits whose value fits 64 bits the digit loop returns the value. -/
theorem parseUintLoop_digits (cs : List Char) (n : Nat)
    (hd : ∀ c ∈ cs, c.isDigit = true)
    (hv : cs.foldl (fun a c => a * 10 + (c.toNat - 48)) n < 2 ^ 64) :
    parseUintLoop cs n = Except.ok (cs.foldl (fun a c => a * 10 + (c.toNat - 48)) n) := by
  induction cs generalizing n with
  | nil => simp [parseUintLoop]
  | cons c rest ih =>
    have hc := digitVal_of_isDigit c (hd c (List.mem_cons_self _ _))
    have hmono : ∀ (l : List Char) (a : Nat),
        a ≤ l.foldl (fun a c => a * 10 + (c.toNat - 48)) a := by
      intro l
      induction l with
      | nil => intro a; simp
      | cons x xs ihx =>
        intro a
        simp only [List.foldl_cons]
        exact le_trans (by omega) (ihx (a * 10 + (x.toNat - 48)))
    simp only [List.foldl_cons] at hv ⊢
    have hle := hmono rest (n * 10 + (c.toNat - 48))
    have hlt : n * 10 + (c.toNat - 48) < 2 ^ 64 := lt_of_le_of_lt hle hv
    have h64 : (2 : Nat) ^ 64 = 18446744073709551616 := by norm_num
    rw [parseUintLoop, hc]
    simp only [h64] at hlt ⊢
    have c1 : ¬ (n ≥ (18446744073709551616 - 1) / 10 + 1) := by omega
    have c2 : ¬ (n * 10 + (c.toNat - 48) > 18446744073709551616 - 1) := by omega
    simp only [c1, c2, if_false]
    rw [ih (n * 10 + (c.toNat - 48)) (fun x hx => hd x (List.mem_cons_of_mem _ hx))
      (by simpa [h64] using hv)]

theorem foldl_digits_mono (l : List Char) (a : Nat) :
    a ≤ l.foldl (fun a c => a * 10 + (c.toNat - 48)) a := by
  induction l generalizing a with
  | nil => simp
  | cons x xs ih =>
    simp only [List.foldl_cons]
    exact le_trans (by omega) (ih (a * 10 + (x.toNat - 48)))

/-- On a string of digits whose value does not fit 64 bits the digit loop
reports a value out of range. -/
theorem parseUintLoop_digits_overflow (cs : List Char) (n : Nat)
    (hd : ∀ c ∈ cs, c.isDigit = true) (hn : n < 2 ^ 64)
    (hv : 2 ^ 64 ≤ cs.foldl (fun a c => a * 10 + (c.toNat - 48)) n) :
    parseUintLoop cs n = Except.error NumError.outOfRange := by
  induction cs generalizing n with
  | nil =>
    simp only [List.foldl_nil] at hv
    omega
  | cons c rest ih =>
    have hc := digitVal_of_isDigit c (hd c (List.mem_cons_self _ _))
    simp only [List.foldl_cons] at hv
    have h64 : (2 : Nat) ^ 64 = 18446744073709551616 := by norm_num
    rw [parseUintLoop, hc]
    simp only []
    by_cases c1 : n ≥ (2 ^ 64 - 1) / 10 + 1
    · rw [if_pos c1]
    · rw [if_neg c1]
      by_cases c2 : n * 10 + (c.toNat - 48) > 2 ^ 64 - 1
      · rw [if_pos c2]
      · rw [if_neg c2]
        exact ih (n * 10 + (c.toNat - 48)) (fun x hx => hd x (List.mem_cons_of_mem _ hx))
          (by rw [h64] at c2 ⊢; omega) hv

/-- The digit loop succeeds only on digits. -/
theorem parseUintLoop_ok_digits (cs : List Char) (n m : Nat)
    (h : parseUintLoop cs n = Except.ok m) : ∀ c ∈ cs, c.isDigit = true := by
  induction cs generalizing n with
  | nil => simp
  | cons c rest ih =>
    rw [parseUintLoop] at h
    cases hdv : digitVal c with
    | none => simp [hdv] at h
    | some d =>
      simp only [hdv] at h
      split at h
      · simp at h
      · split at h
        · simp at h
        · intro x hx
          rcases List.mem_cons.mp hx with e | e
          · subst e; exact (digitVal_eq_some_iff x).mp ⟨d, hdv⟩
          · exact ih _ h x e

/-- A numeral below `2 ^ 63` parses to its value. -/
theorem ParseInt_decimal (s : String) (hs : isDecimalNumeral s = true)
    (hv : decimalValue s < 2 ^ 63) : ParseInt s = Except.ok (decimalValue s : Int) := by
  unfold isDecimalNumeral at hs
  unfold decimalValue at hv ⊢
  simp only [Bool.and_eq_true, Bool.not_eq_true', List.all_eq_true] at hs
  obtain ⟨hne, hall⟩ := hs
  unfold ParseInt
  cases hdat : s.data with
  | nil => simp [hdat] at hne
  | cons c rest =>
    rw [hdat] at hall hv
    have hcd : c.isDigit = true := hall c (List.mem_cons_self _ _)
    have hplus : c ≠ '+' := by
      intro e; subst e; exact absurd hcd (by decide)
    have hminus : c ≠ '-' := by
      intro e; subst e; exact absurd hcd (by decide)
    have h64 : (2 : Nat) ^ 63 < 2 ^ 64 := by norm_num
    have hloop := parseUintLoop_digits (c :: rest) 0 hall (lt_trans hv h64)
    simp only [hplus, hminus, or_self, if_false, ParseUint, hloop, decide_False]
    have c1 : ¬ List.foldl (fun a c => a * 10 + (c.toNat - 48)) 0 (c :: rest) ≥ 2 ^ 63 := by
      omega
    rw [if_neg (fun hcon => c1 hcon.2), if_neg (fun hcon => Bool.noConfusion hcon.1)]
    simp

/-- A numeral denoting `2 ^ 63` or more is out of range. -/
theorem ParseInt_decimal_outOfRange (s : String) (hs : isDecimalNumeral s = true)
    (hv : 2 ^ 63 ≤ decimalValue s) : ParseInt s = Except.error NumError.outOfRange := by
  unfold isDecimalNumeral at hs
  unfold decimalValue at hv
  simp only [Bool.and_eq_true, Bool.not_eq_true', List.all_eq_true] at hs
  obtain ⟨hne, hall⟩ := hs
  unfold ParseInt
  cases hdat : s.data with
  | nil => simp [hdat] at hne
  | cons c rest =>
    rw [hdat] at hall hv
    have hcd : c.isDigit = true := hall c (List.mem_cons_self _ _)
    have hplus : c ≠ '+' := by
      intro e; subst e; exact absurd hcd (by decide)
    have hminus : c ≠ '-' := by
      intro e; subst e; exact absurd hcd (by decide)
    simp only [hplus, hminus, or_self, if_false, ParseUint, decide_False]
    by_cases hfit : List.foldl (fun a c => a * 10 + (c.toNat - 48)) 0 (c :: rest) < 2 ^ 64
    · rw [parseUintLoop_digits (c :: rest) 0 hall hfit]
      simp only []
      rw [if_pos ⟨trivial, hv⟩]
    · rw [parseUintLoop_digits_overflow (c :: rest) 0 hall (by norm_num) (by omega)]

/-- A string that is no base-10 integer numeral does not parse. -/
theorem ParseInt_not_integer (s : String) (hs : isBase10Integer s = false) :
    ∃ e, ParseInt s = Except.error e := by
  unfold isBase10Integer at hs
  unfold ParseInt
  cases hdat : s.data with
  | nil => exact ⟨_, rfl⟩
  | cons c rest =>
    simp only [hdat] at hs
    simp only []
    cases hp : ParseUint (if c = '+' ∨ c = '-' then rest else c :: rest) with
    | error e => exact ⟨e, rfl⟩
    | ok un =>
      exfalso
      by_cases hsign : c = '+' ∨ c = '-'
      · simp only [hsign, if_true] at hs hp
        cases rest with
        | nil => simp [ParseUint] at hp
        | cons x xs =>
          simp only [ParseUint] at hp
          have := parseUintLoop_ok_digits _ _ _ hp
          simp only [List.isEmpty_cons, Bool.not_false, Bool.true_and] at hs
          have h2 : (x :: xs).all Char.isDigit = true := List.all_eq_true.mpr this
          rw [h2] at hs
          exact Bool.noConfusion hs
      · simp only [hsign, if_false] at hs hp
        simp only [ParseUint] at hp
        have := parseUintLoop_ok_digits _ _ _ hp
        have h2 : (c :: rest).all Char.isDigit = true := List.all_eq_true.mpr this
        rw [h2] at hs
        exact Bool.noConfusion hs

/-- Integers of magnitude at most `2 ^ 53` convert to `float64` exactly. -/
theorem float64_exact (n : Nat) (h : n ≤ 2 ^ 53) : float64 (n : Int) = (n : Int) := by
  unfold float64 float64OfNat
  have hnn : ¬ ((n : Int) < 0) := by omega
  simp only [hnn, if_false, Int.natAbs_ofNat]
  by_cases hlt : n < 2 ^ 53
  · rw [if_pos hlt]
  · have : n = 2 ^ 53 := by omega
    subst this
    decide

/-! ## Lemmas on the status-row loop -/

theorem mapKeys_getFamilyDefinitions : mapKeys getFamilyDefinitions = recognizedNames := by
  decide

theorem mem_recognizedNames_iff (name : String) :
    name ∈ recognizedNames ↔ name ∈ counterCases ∨ name = gaugeCase := by
  simp only [recognizedNames, counterCases, gaugeCase, List.mem_cons, List.mem_singleton,
    List.mem_nil_iff, or_false]
  tauto

theorem declaredKind_counterCases (name : String) (h : name ∈ counterCases) :
    declaredKind name = some MetricType.COUNTER := by
  simp only [counterCases, List.mem_cons, List.mem_singleton, List.mem_nil_iff, or_false] at h
  rcases h with h | h | h | h | h | h | h | h <;> subst h <;> decide

theorem declaredKind_gaugeCase : declaredKind gaugeCase = some MetricType.GAUGE := by
  decide

theorem gaugeCase_not_counter : gaugeCase ∉ counterCases := by
  decide

theorem declaredKind_isSome_iff (name : String) :
    (∃ t, declaredKind name = some t) ↔ name ∈ recognizedNames := by
  rw [← mapKeys_getFamilyDefinitions]
  unfold declaredKind
  constructor
  · rintro ⟨t, ht⟩
    by_contra hn
    rw [(mapGet_eq_none_iff _ _).mpr hn] at ht
    simp at ht
  · intro h
    obtain ⟨fam, hfam⟩ := mapGet_isSome_of_mem _ _ h
    exact ⟨fam.Typ, by simp [hfam]⟩

/-- A recognized row whose value parses is stored as one observation of the declared kind. -/
theorem statusRow_recognized (w : World) (metrics : MetricFamilyMap) (key val : String)
    (i : Int) (hname : w.ToLower key ∈ recognizedNames) (hp : ParseInt val = Except.ok i) :
    ∃ t, declaredKind (w.ToLower key) = some t ∧
      statusRow w metrics key val =
        Except.ok (mapSet metrics (w.ToLower key) [observation t (float64 i)]) := by
  rcases (mem_recognizedNames_iff _).mp hname with hc | hg
  · refine ⟨MetricType.COUNTER, declaredKind_counterCases _ hc, ?_⟩
    simp [statusRow, hc, hp, observation]
  · refine ⟨MetricType.GAUGE, by rw [hg]; exact declaredKind_gaugeCase, ?_⟩
    have hnc : w.ToLower key ∉ counterCases := by rw [hg]; exact gaugeCase_not_counter
    simp only [statusRow]
    rw [if_neg hnc, if_pos hg, hp]
    rfl

/-- A recognized row whose value does not parse ends the collection. -/
theorem statusRow_notInteger (w : World) (metrics : MetricFamilyMap) (key val : String)
    (e : NumError) (hname : w.ToLower key ∈ recognizedNames)
    (hp : ParseInt val = Except.error e) :
    statusRow w metrics key val = Except.error (StatusError.notInteger key val) := by
  rcases (mem_recognizedNames_iff _).mp hname with hc | hg
  · simp [statusRow, hc, hp]
  · have hnc : w.ToLower key ∉ counterCases := by rw [hg]; exact gaugeCase_not_counter
    simp only [statusRow]
    rw [if_neg hnc, if_pos hg, hp]

/-- A row that is not recognized leaves the map as it is. -/
theorem statusRow_unrecognized (w : World) (metrics : MetricFamilyMap) (key val : String)
    (hname : w.ToLower key ∉ recognizedNames) :
    statusRow w metrics key val = Except.ok metrics := by
  have h := (mem_recognizedNames_iff (w.ToLower key)).not.mp hname
  push_neg at h
  simp [statusRow, h.1, h.2]

/-- A row changes the map at most under its own lower-cased key. -/
theorem statusRow_other_key (w : World) (metrics m1 : MetricFamilyMap) (key val name : String)
    (h : statusRow w metrics key val = Except.ok m1) (hne : w.ToLower key ≠ name) :
    mapGet m1 name = mapGet metrics name := by
  by_cases hname : w.ToLower key ∈ recognizedNames
  · cases hp : ParseInt val with
    | error e =>
      rw [statusRow_notInteger w metrics key val e hname hp] at h
      exact Except.noConfusion h
    | ok i =>
      obtain ⟨t, _, hs⟩ := statusRow_recognized w metrics key val i hname hp
      rw [hs] at h
      injection h with h
      subst h
      exact mapGet_mapSet_ne _ _ _ _ (fun e => hne e.symm)
  · rw [statusRow_unrecognized w metrics key val hname] at h
    injection h with h
    subst h
    rfl

/-- The row loop ends with a map and no error, or with an error and no map. -/
theorem scanRows_cases (w : World) (rows : List (Except String (String × String)))
    (metrics : MetricFamilyMap) :
    (∃ r, scanRows w rows metrics = (some r, none)) ∨
      (∃ e, scanRows w rows metrics = (none, some e)) := by
  induction rows generalizing metrics with
  | nil => exact Or.inl ⟨metrics, rfl⟩
  | cons row rest ih =>
    cases row with
    | error err => exact Or.inr ⟨_, rfl⟩
    | ok kv =>
      obtain ⟨key, val⟩ := kv
      cases hs : statusRow w metrics key val with
      | error e => exact Or.inr ⟨e, by simp [scanRows, hs]⟩
      | ok m1 => simpa [scanRows, hs] using ih m1

theorem scanRows_append_ok (w : World) (pre post : List (Except String (String × String)))
    (metrics m1 : MetricFamilyMap) (h : scanRows w pre metrics = (some m1, none)) :
    scanRows w (pre ++ post) metrics = scanRows w post m1 := by
  induction pre generalizing metrics with
  | nil =>
    simp only [scanRows, Prod.mk.injEq, Option.some.injEq, and_true] at h
    subst h
    rfl
  | cons row rest ih =>
    cases row with
    | error err => simp [scanRows] at h
    | ok kv =>
      obtain ⟨key, val⟩ := kv
      cases hs : statusRow w metrics key val with
      | error e => simp [scanRows, hs] at h
      | ok m2 =>
        simp only [scanRows, hs, List.cons_append] at h ⊢
        exact ih m2 h

theorem scanRows_append_error (w : World) (pre post : List (Except String (String × String)))
    (metrics : MetricFamilyMap) (e : StatusError)
    (h : scanRows w pre metrics = (none, some e)) :
    scanRows w (pre ++ post) metrics = (none, some e) := by
  induction pre generalizing metrics with
  | nil => simp [scanRows] at h
  | cons row rest ih =>
    cases row with
    | error err => simpa [scanRows] using h
    | ok kv =>
      obtain ⟨key, val⟩ := kv
      cases hs : statusRow w metrics key val with
      | error e1 => simpa [scanRows, hs] using h
      | ok m2 =>
        simp only [scanRows, hs, List.cons_append] at h ⊢
        exact ih m2 h

/-- Rows with other lower-cased keys do not touch the entry of a name. -/
theorem scanRows_other_keys (w : World) (rows : List (Except String (String × String)))
    (metrics r : MetricFamilyMap) (name : String)
    (h : scanRows w rows metrics = (some r, none))
    (hne : ∀ k v, Except.ok (k, v) ∈ rows → w.ToLower k ≠ name) :
    mapGet r name = mapGet metrics name := by
  induction rows generalizing metrics with
  | nil =>
    simp only [scanRows, Prod.mk.injEq, Option.some.injEq, and_true] at h
    subst h
    rfl
  | cons row rest ih =>
    cases row with
    | error err => simp [scanRows] at h
    | ok kv =>
      obtain ⟨key, val⟩ := kv
      cases hs : statusRow w metrics key val with
      | error e => simp [scanRows, hs] at h
      | ok m2 =>
        simp only [scanRows, hs] at h
        rw [ih m2 h (fun k v hm => hne k v (List.mem_cons_of_mem _ hm))]
        exact statusRow_other_key w metrics m2 key val name hs
          (hne key val (List.mem_cons_self _ _))

/-- A recognized row whose value does not parse makes the row loop fail. -/
theorem scanRows_notInteger (w : World) (rows : List (Except String (String × String)))
    (metrics : MetricFamilyMap) (key val : String) (e : NumError)
    (hmem : Except.ok (key, val) ∈ rows) (hname : w.ToLower key ∈ recognizedNames)
    (hp : ParseInt val = Except.error e) :
    ∃ err, scanRows w rows metrics = (none, some err) := by
  induction rows generalizing metrics with
  | nil => simp at hmem
  | cons row rest ih =>
    cases row with
    | error err => exact ⟨_, rfl⟩
    | ok kv =>
      obtain ⟨k, v⟩ := kv
      cases hs : statusRow w metrics k v with
      | error e1 => exact ⟨e1, by simp [scanRows, hs]⟩
      | ok m2 =>
        rcases List.mem_cons.mp hmem with heq | hin
        · injection heq with heq
          injection heq with hk hv
          subst hk; subst hv
          rw [statusRow_notInteger w metrics key val e hname hp] at hs
          exact Except.noConfusion hs
        · simpa [scanRows, hs] using ih m2 hin

theorem StatusMap_nil : StatusMap [] := by
  refine ⟨by simp [mapKeys], ?_⟩
  intro k pts h
  simp [mapGet] at h

theorem statusRow_StatusMap (w : World) (metrics m1 : MetricFamilyMap) (key val : String)
    (h : statusRow w metrics key val = Except.ok m1) (hm : StatusMap metrics) :
    StatusMap m1 := by
  by_cases hname : w.ToLower key ∈ recognizedNames
  · cases hp : ParseInt val with
    | error e =>
      rw [statusRow_notInteger w metrics key val e hname hp] at h
      exact Except.noConfusion h
    | ok i =>
      obtain ⟨t, ht, hs⟩ := statusRow_recognized w metrics key val i hname hp
      rw [hs] at h
      injection h with h
      subst h
      refine ⟨mapKeys_nodup_mapSet _ _ _ hm.1, ?_⟩
      intro k pts hk
      by_cases hkk : k = w.ToLower key
      · subst hkk
        rw [mapGet_mapSet_self] at hk
        injection hk with hk
        exact ⟨t, float64 i, ht, hk.symm⟩
      · rw [mapGet_mapSet_ne _ _ _ _ hkk] at hk
        exact hm.2 k pts hk
  · rw [statusRow_unrecognized w metrics key val hname] at h
    injection h with h
    subst h
    exact hm

theorem scanRows_StatusMap (w : World) (rows : List (Except String (String × String)))
    (metrics r : MetricFamilyMap) (h : scanRows w rows metrics = (some r, none))
    (hm : StatusMap metrics) : StatusMap r := by
  induction rows generalizing metrics with
  | nil =>
    simp only [scanRows, Prod.mk.injEq, Option.some.injEq, and_true] at h
    subst h
    exact hm
  | cons row rest ih =>
    cases row with
    | error err => simp [scanRows] at h
    | ok kv =>
      obtain ⟨key, val⟩ := kv
      cases hs : statusRow w metrics key val with
      | error e => simp [scanRows, hs] at h
      | ok m2 =>
        simp only [scanRows, hs] at h
        exact ih m2 h (statusRow_StatusMap w metrics m2 key val hs hm)

theorem fromServerStatusVars_cases (w : World) (n : Nat) (db : DB) :
    (∃ r, fromServerStatusVars w n db = (some r, none) ∧ StatusMap r) ∨
      (∃ e, fromServerStatusVars w n db = (none, some e)) := by
  unfold fromServerStatusVars
  cases hq : w.Query n db with
  | error err => exact Or.inr ⟨_, rfl⟩
  | ok rows =>
    rcases scanRows_cases w rows [] with ⟨r, hr⟩ | ⟨e, he⟩
    · exact Or.inl ⟨r, hr, scanRows_StatusMap w rows [] r hr StatusMap_nil⟩
    · exact Or.inr ⟨e, he⟩

theorem fromServerStatusVars_of_query (w : World) (n : Nat) (db : DB)
    (rows : List (Except String (String × String))) (hq : w.Query n db = Except.ok rows) :
    fromServerStatusVars w n db = scanRows w rows [] := by
  unfold fromServerStatusVars
  rw [hq]

/-- Every recognized name has an entry in the definitions, a family of that name. -/
theorem getFamilyDefinitions_entry (name : String) (h : name ∈ recognizedNames) :
    ∃ kv ∈ getFamilyDefinitions, kv.1 = name ∧ kv.2.Name = name := by
  rw [← mapKeys_getFamilyDefinitions] at h
  obtain ⟨kv, hkv, hk⟩ := List.mem_map.mp h
  have hall : ∀ kv ∈ getFamilyDefinitions, kv.2.Name = kv.1 := by decide
  exact ⟨kv, hkv, hk, (hall kv hkv).trans hk⟩

/-! ## Lemmas on `GatherMetrics` -/

theorem withDefaultTimeout_Addr (c : MysqlConfig) : (withDefaultTimeout c).Addr = c.Addr := by
  unfold withDefaultTimeout
  split <;> rfl

theorem mapKeys_tagAll (m : MetricFamilyMap) (tags : List LabelPair) :
    mapKeys (tagAll m tags) = mapKeys m := by
  simp [mapKeys, tagAll, List.map_map, Function.comp_def]

theorem mapGet_tagAll (m : MetricFamilyMap) (tags : List LabelPair) (name : String) :
    mapGet (tagAll m tags) name =
      (mapGet m name).map (fun pts =>
        pts.map (fun metric => { metric with Label := metric.Label ++ tags })) := by
  induction m with
  | nil => rfl
  | cons hd tl ih =>
    obtain ⟨k, pts⟩ := hd
    simp only [tagAll, List.map_cons, mapGet] at ih ⊢
    by_cases h : k = name
    · simp [h]
    · simp only [h, if_false]
      exact ih

theorem groupPointsOf_eq_mapGet (group : MetricFamilyMap) (name : String)
    (hnd : (mapKeys group).Nodup) :
    groupPointsOf group name = (mapGet group name).getD [] := by
  induction group with
  | nil => rfl
  | cons hd tl ih =>
    obtain ⟨k, pts⟩ := hd
    simp only [mapKeys, List.map_cons, List.nodup_cons] at hnd
    by_cases h : k = name
    · subst h
      have hn : mapGet tl k = none := (mapGet_eq_none_iff tl k).mpr hnd.1
      have ih2 := ih hnd.2
      rw [hn] at ih2
      simp [groupPointsOf, mapGet, ih2]
    · simp only [groupPointsOf, mapGet, h, if_false]
      exact ih hnd.2

/-- One server: success is exactly a successful parse, open and collection,
and the results are the collected map tagged with the resolved address. -/
theorem gatherServer_of_collected (w : World) (i : Nat) (server addr : String)
    (m : MetricFamilyMap) (h : collected w i server = some (addr, m)) :
    (gatherServer w i server).1 =
      Except.ok (tagAll m [{ Name := "server", Value := addr }]) := by
  unfold collected at h
  unfold gatherServer
  cases hp : w.ParseDSN server with
  | error e => simp [hp] at h
  | ok parsed =>
    simp only [hp] at h ⊢
    cases ho : w.Open (w.FormatDSN (withDefaultTimeout parsed)) with
    | error e => simp [ho] at h
    | ok db =>
      simp only [ho] at h ⊢
      rcases fromServerStatusVars_cases w i db with ⟨r, hr, _⟩ | ⟨e, he⟩
      · simp only [hr, Option.some.injEq, Prod.mk.injEq] at h ⊢
        obtain ⟨ha, hm⟩ := h
        subst ha; subst hm
        simp [withDefaultTimeout_Addr, serverNameLabel]
      · simp [he] at h

theorem gatherServer_of_not_collected (w : World) (i : Nat) (server : String)
    (h : collected w i server = none) :
    ∃ e, (gatherServer w i server).1 = Except.error e ∧
      ∀ g, e ≠ GatherError.unspecifiedPoint g := by
  unfold collected at h
  unfold gatherServer
  cases hp : w.ParseDSN server with
  | error e => exact ⟨_, rfl, fun g hc => GatherError.noConfusion hc⟩
  | ok parsed =>
    simp only [hp] at h ⊢
    cases ho : w.Open (w.FormatDSN (withDefaultTimeout parsed)) with
    | error e => exact ⟨_, rfl, fun g hc => GatherError.noConfusion hc⟩
    | ok db =>
      simp only [ho] at h ⊢
      rcases fromServerStatusVars_cases w i db with ⟨r, hr, _⟩ | ⟨e, he⟩
      · simp [hr] at h
      · simp only [he]
        exact ⟨_, rfl, fun g hc => GatherError.noConfusion hc⟩

theorem collected_StatusMap (w : World) (i : Nat) (server addr : String)
    (m : MetricFamilyMap) (h : collected w i server = some (addr, m)) : StatusMap m := by
  unfold collected at h
  cases hp : w.ParseDSN server with
  | error e => simp [hp] at h
  | ok parsed =>
    simp only [hp] at h
    cases ho : w.Open (w.FormatDSN (withDefaultTimeout parsed)) with
    | error e => simp [ho] at h
    | ok db =>
      simp only [ho] at h
      rcases fromServerStatusVars_cases w i db with ⟨r, hr, hsm⟩ | ⟨e, he⟩
      · simp only [hr, Option.some.injEq, Prod.mk.injEq] at h
        rw [← h.2]
        exact hsm
      · simp [he] at h

theorem collected_Addr (w : World) (i : Nat) (server addr : String)
    (m : MetricFamilyMap) (h : collected w i server = some (addr, m)) :
    ∃ parsed, w.ParseDSN server = Except.ok parsed ∧ addr = parsed.Addr := by
  unfold collected at h
  cases hp : w.ParseDSN server with
  | error e => simp [hp] at h
  | ok parsed =>
    simp only [hp] at h
    refine ⟨parsed, rfl, ?_⟩
    cases ho : w.Open (w.FormatDSN (withDefaultTimeout parsed)) with
    | error e => simp [ho] at h
    | ok db =>
      simp only [ho] at h
      rcases fromServerStatusVars_cases w i db with ⟨r, hr, hsm⟩ | ⟨e, he⟩
      · simp only [hr, Option.some.injEq, Prod.mk.injEq] at h
        exact h.1.symm
      · simp [he] at h

theorem gatherServer_trace_position (w : World) (i : Nat) (server : String) :
    ∀ ev ∈ (gatherServer w i server).2, ev.position = some i := by
  unfold gatherServer
  cases hp : w.ParseDSN server with
  | error e => simp [Event.position]
  | ok parsed =>
    simp only []
    cases ho : w.Open (w.FormatDSN (withDefaultTimeout parsed)) with
    | error e => simp [Event.position]
    | ok db =>
      simp only []
      rcases fromServerStatusVars_cases w i db with ⟨r, hr, _⟩ | ⟨e, he⟩
      · simp [hr, Event.position]
      · simp [he, Event.position]

theorem gatherServer_parse_error (w : World) (i : Nat) (server err : String)
    (h : w.ParseDSN server = Except.error err) :
    gatherServer w i server =
      (Except.error (GatherError.parsingDSN err), [Event.parsedDSN i server]) := by
  simp [gatherServer, h]

/-- While every server collects, the first loop gathers one tagged map per
server, in list order. -/
theorem gatherLoop_all_collected (w : World) (i : Nat) (servers : List String)
    (hall : ∀ p ∈ List.enumFrom i servers, (collected w p.1 p.2).isSome = true) :
    gatherLoop w i servers =
      (Except.ok ((List.enumFrom i servers).map (taggedResults w)),
        (List.enumFrom i servers).flatMap (fun p => (gatherServer w p.1 p.2).2)) := by
  induction servers generalizing i with
  | nil => rfl
  | cons s rest ih =>
    have hs := hall (i, s) (by simp [List.enumFrom_cons])
    cases hc : collected w i s with
    | none => simp [hc] at hs
    | some am =>
      obtain ⟨addr, m⟩ := am
      have hg := gatherServer_of_collected w i s addr m hc
      have hrest := ih (i + 1) (fun p hp => hall p (by
        rw [List.enumFrom_cons]; exact List.mem_cons_of_mem _ hp))
      rw [gatherLoop]
      have hpair : gatherServer w i s =
          (Except.ok (tagAll m [{ Name := "server", Value := addr }]),
            (gatherServer w i s).2) := by
        rw [← hg]
      rw [hpair, hrest]
      simp [List.enumFrom_cons, taggedResults, hc]

/-- The first failing server ends the first loop with its error, after the
calls of the servers before it and its own. -/
theorem gatherLoop_first_failure (w : World) (i : Nat) (pre post : List String)
    (s : String) (e : GatherError)
    (hall : ∀ p ∈ List.enumFrom i pre, (collected w p.1 p.2).isSome = true)
    (hfail : (gatherServer w (i + pre.length) s).1 = Except.error e) :
    gatherLoop w i (pre ++ s :: post) =
      (Except.error e,
        (List.enumFrom i pre).flatMap (fun p => (gatherServer w p.1 p.2).2) ++
          (gatherServer w (i + pre.length) s).2) := by
  induction pre generalizing i with
  | nil =>
    simp only [List.length_nil, Nat.add_zero] at hfail
    have hpair : gatherServer w i s = (Except.error e, (gatherServer w i s).2) := by
      rw [← hfail]
    simp only [List.nil_append, gatherLoop, List.length_nil, Nat.add_zero, List.enumFrom_nil,
      List.flatMap_nil]
    rw [hpair]
  | cons x rest ih =>
    have hs := hall (i, x) (by simp [List.enumFrom_cons])
    cases hc : collected w i x with
    | none => simp [hc] at hs
    | some am =>
      obtain ⟨addr, m⟩ := am
      have hg := gatherServer_of_collected w i x addr m hc
      have hpair : gatherServer w i x =
          (Except.ok (tagAll m [{ Name := "server", Value := addr }]),
            (gatherServer w i x).2) := by
        rw [← hg]
      have hidx : i + 1 + rest.length = i + (x :: rest).length := by
        simp only [List.length_cons]; omega
      have hrest := ih (i + 1) (fun p hp => hall p (by
        rw [List.enumFrom_cons]; exact List.mem_cons_of_mem _ hp)) (by rw [hidx]; exact hfail)
      rw [List.cons_append, gatherLoop, hpair, hrest]
      simp [List.enumFrom_cons, hidx]

/-- Whatever the servers do, the first loop ends with a result or an error
that is not the unspecified-point error, and every map it gathers is a tagged
status map of some server. -/
theorem gatherLoop_result (w : World) (i : Nat) (servers : List String) :
    (∃ e, (gatherLoop w i servers).1 = Except.error e ∧
        (∀ g, e ≠ GatherError.unspecifiedPoint g) ∧
        ∃ p ∈ List.enumFrom i servers, collected w p.1 p.2 = none) ∨
      ((gatherLoop w i servers).1 = Except.ok ((List.enumFrom i servers).map (taggedResults w)) ∧
        ∀ p ∈ List.enumFrom i servers, (collected w p.1 p.2).isSome = true) := by
  induction servers generalizing i with
  | nil => exact Or.inr ⟨rfl, by simp⟩
  | cons s rest ih =>
    cases hc : collected w i s with
    | none =>
      obtain ⟨e, he, hne⟩ := gatherServer_of_not_collected w i s hc
      refine Or.inl ⟨e, ?_, hne, (i, s), by simp [List.enumFrom_cons], hc⟩
      have hpair : gatherServer w i s = (Except.error e, (gatherServer w i s).2) := by
        rw [← he]
      rw [gatherLoop, hpair]
    | some am =>
      obtain ⟨addr, m⟩ := am
      have hg := gatherServer_of_collected w i s addr m hc
      have hpair : gatherServer w i s =
          (Except.ok (tagAll m [{ Name := "server", Value := addr }]),
            (gatherServer w i s).2) := by
        rw [← hg]
      rcases ih (i + 1) with ⟨e, he, hne, p, hp, hpc⟩ | ⟨hok, hall⟩
      · refine Or.inl ⟨e, ?_, hne, p, ?_, hpc⟩
        · have hp2 : gatherLoop w (i + 1) rest = (Except.error e, (gatherLoop w (i + 1) rest).2) := by
            rw [← he]
          rw [gatherLoop, hpair, hp2]
        · rw [List.enumFrom_cons]; exact List.mem_cons_of_mem _ hp
      · refine Or.inr ⟨?_, ?_⟩
        · have hp2 : gatherLoop w (i + 1) rest =
              (Except.ok ((List.enumFrom (i + 1) rest).map (taggedResults w)),
                (gatherLoop w (i + 1) rest).2) := by
            rw [← hok]
          rw [gatherLoop, hpair, hp2]
          simp [List.enumFrom_cons, taggedResults, hc]
        · intro p hp
          rw [List.enumFrom_cons] at hp
          rcases List.mem_cons.mp hp with h1 | h1
          · subst h1; simp [hc]
          · exact hall p h1

/-- Events of the first loop belong to positions of the list. -/
theorem gatherLoop_trace_position (w : World) (i : Nat) (servers : List String) :
    ∀ ev ∈ (gatherLoop w i servers).2,
      ∃ p, ev.position = some p ∧ i ≤ p ∧ p < i + servers.length := by
  induction servers generalizing i with
  | nil => simp [gatherLoop]
  | cons s rest ih =>
    intro ev hev
    have hsrv := gatherServer_trace_position w i s
    rw [gatherLoop] at hev
    cases hg : gatherServer w i s with
    | mk r tr =>
      rw [hg] at hev hsrv
      cases r with
      | error e =>
        simp only at hev
        exact ⟨i, hsrv ev hev, le_refl _, by simp⟩
      | ok results =>
        simp only at hev
        have ih2 := ih (i + 1)
        cases hl : gatherLoop w (i + 1) rest with
        | mk r1 tr1 =>
          rw [hl] at hev ih2
          have hmem : ev ∈ tr ++ tr1 := by
            cases r1 <;> simpa using hev
          rcases List.mem_append.mp hmem with h1 | h1
          · exact ⟨i, hsrv ev h1, le_refl _, by simp⟩
          · obtain ⟨p, hp, h2, h3⟩ := ih2 ev h1
            exact ⟨p, hp, by omega, by simp only [List.length_cons]; omega⟩

/-- An entry that does not parse ends the first loop with an error, and no
connection event belongs to its position or a later one. -/
theorem gatherLoop_malformed (w : World) (i : Nat) (pre post : List String)
    (s err : String) (h : w.ParseDSN s = Except.error err) :
    (∃ e, (gatherLoop w i (pre ++ s :: post)).1 = Except.error e) ∧
      ∀ ev ∈ (gatherLoop w i (pre ++ s :: post)).2, ev.isConnection = true →
        ∃ p, ev.position = some p ∧ p < i + pre.length := by
  induction pre generalizing i with
  | nil =>
    simp only [List.nil_append, gatherLoop, gatherServer_parse_error w i s err h]
    refine ⟨⟨_, rfl⟩, ?_⟩
    intro ev hev hconn
    simp only [List.mem_singleton] at hev
    subst hev
    simp [Event.isConnection] at hconn
  | cons x rest ih =>
    have hsrv := gatherServer_trace_position w i x
    obtain ⟨⟨e1, he1⟩, htr⟩ := ih (i + 1)
    rw [List.cons_append, gatherLoop]
    cases hg : gatherServer w i x with
    | mk r tr =>
      rw [hg] at hsrv
      cases r with
      | error e =>
        refine ⟨⟨e, rfl⟩, ?_⟩
        intro ev hev _
        exact ⟨i, hsrv ev hev, by simp⟩
      | ok results =>
        cases hl : gatherLoop w (i + 1) (rest ++ s :: post) with
        | mk r1 tr1 =>
          rw [hl] at he1 htr
          simp only at he1
          subst he1
          refine ⟨⟨e1, rfl⟩, ?_⟩
          intro ev hev hconn
          simp only at hev
          rcases List.mem_append.mp hev with h1 | h1
          · exact ⟨i, hsrv ev h1, by simp⟩
          · obtain ⟨p, hp, h2⟩ := htr ev h1 hconn
            exact ⟨p, hp, by simp only [List.length_cons]; omega⟩

/-- Two maps with the same distinct keys in the same order and the same
entries are the same list. -/
theorem map_ext {β : Type} (a b : List (String × β)) (hk : mapKeys a = mapKeys b)
    (hnd : (mapKeys a).Nodup) (hg : ∀ k ∈ mapKeys a, mapGet a k = mapGet b k) : a = b := by
  induction a generalizing b with
  | nil =>
    cases b with
    | nil => rfl
    | cons y ys => simp [mapKeys] at hk
  | cons x xs ih =>
    cases b with
    | nil => simp [mapKeys] at hk
    | cons y ys =>
      obtain ⟨kx, vx⟩ := x
      obtain ⟨ky, vy⟩ := y
      simp only [mapKeys, List.map_cons, List.cons.injEq] at hk
      obtain ⟨hk1, hk2⟩ := hk
      subst hk1
      simp only [mapKeys, List.map_cons, List.nodup_cons] at hnd
      have hv := hg kx (by simp [mapKeys])
      simp only [mapGet, if_true, Option.some.injEq] at hv
      subst hv
      have htl : xs = ys := by
        apply ih ys hk2 hnd.2
        intro k hkmem
        have hne : ¬ kx = k := fun e => hnd.1 (e ▸ hkmem)
        have := hg k (by simp only [mapKeys, List.map_cons]; exact List.mem_cons_of_mem _ hkmem)
        simpa [mapGet, hne] using this
      rw [htl]

/-- A group whose names are all family names is merged without error: the
keys stay, and each family gains the points the group holds under its name. -/
theorem coalesceGroup_ok (fams : List (String × MetricFamily)) (group : MetricFamilyMap)
    (hkeys : ∀ k ∈ mapKeys group, k ∈ mapKeys fams) :
    ∃ fams1, coalesceGroup fams group = Except.ok fams1 ∧ mapKeys fams1 = mapKeys fams ∧
      ∀ name fam, mapGet fams name = some fam →
        mapGet fams1 name =
          some { fam with Metric := fam.Metric ++ groupPointsOf group name } := by
  induction group generalizing fams with
  | nil =>
    refine ⟨fams, rfl, rfl, ?_⟩
    intro name fam h
    simp [groupPointsOf, h]
  | cons hd tl ih =>
    obtain ⟨g, pts⟩ := hd
    have hg : g ∈ mapKeys fams := hkeys g (by simp [mapKeys])
    obtain ⟨family, hfam⟩ := mapGet_isSome_of_mem fams g hg
    have hkeys1 : mapKeys (mapSet fams g { family with Metric := family.Metric ++ pts }) =
        mapKeys fams := mapKeys_mapSet_of_mem fams g _ hg
    obtain ⟨fams1, hco, hk1, hget⟩ := ih
      (mapSet fams g { family with Metric := family.Metric ++ pts })
      (fun k hk => by
        rw [hkeys1]
        exact hkeys k (by simp only [mapKeys, List.map_cons]; exact List.mem_cons_of_mem _ hk))
    refine ⟨fams1, ?_, hk1.trans hkeys1, ?_⟩
    · simp only [coalesceGroup, hfam]
      exact hco
    · intro name fam hname
      by_cases hgn : g = name
      · subst hgn
        rw [hfam] at hname
        injection hname with hname
        subst hname
        rw [hget g _ (mapGet_mapSet_self _ _ _)]
        simp [groupPointsOf, List.append_assoc]
      · have hne : name ≠ g := fun e => hgn e.symm
        rw [hget name fam (by rw [mapGet_mapSet_ne _ _ _ _ hne]; exact hname)]
        simp [groupPointsOf, hgn]

/-- Groups whose names are all family names are merged without error, in order. -/
theorem coalesce_ok (fams : List (String × MetricFamily)) (metrics : List MetricFamilyMap)
    (hkeys : ∀ group ∈ metrics, ∀ k ∈ mapKeys group, k ∈ mapKeys fams) :
    ∃ fams1, coalesce fams metrics = Except.ok fams1 ∧ mapKeys fams1 = mapKeys fams ∧
      ∀ name fam, mapGet fams name = some fam →
        mapGet fams1 name =
          some { fam with
            Metric := fam.Metric ++ metrics.flatMap (fun group => groupPointsOf group name) } := by
  induction metrics generalizing fams with
  | nil =>
    refine ⟨fams, rfl, rfl, ?_⟩
    intro name fam h
    simp [h]
  | cons group rest ih =>
    obtain ⟨fams0, hco0, hk0, hget0⟩ := coalesceGroup_ok fams group
      (hkeys group (List.mem_cons_self _ _))
    obtain ⟨fams1, hco1, hk1, hget1⟩ := ih fams0 (fun g hg k hk => by
      rw [hk0]
      exact hkeys g (List.mem_cons_of_mem _ hg) k hk)
    refine ⟨fams1, ?_, hk1.trans hk0, ?_⟩
    · simp only [coalesce, hco0]
      exact hco1
    · intro name fam hname
      rw [hget1 name _ (hget0 name fam hname)]
      simp [List.flatMap_cons, List.append_assoc]

theorem mapKeys_taggedResults (w : World) (p : Nat × String) :
    (mapKeys (taggedResults w p)).Nodup ∧
      ∀ k ∈ mapKeys (taggedResults w p), k ∈ mapKeys getFamilyDefinitions := by
  unfold taggedResults
  cases hc : collected w p.1 p.2 with
  | none => simp [mapKeys]
  | some am =>
    obtain ⟨addr, m⟩ := am
    have hsm := collected_StatusMap w p.1 p.2 addr m hc
    simp only [mapKeys_tagAll]
    refine ⟨hsm.1, ?_⟩
    intro k hk
    obtain ⟨pts, hpts⟩ := mapGet_isSome_of_mem m k hk
    obtain ⟨t, v, ht, _⟩ := hsm.2 k pts hpts
    rw [mapKeys_getFamilyDefinitions]
    exact (declaredKind_isSome_iff k).mp ⟨t, ht⟩

theorem groupPointsOf_taggedResults (w : World) (p : Nat × String) (name : String) :
    groupPointsOf (taggedResults w p) name = contribution w p.1 p.2 name := by
  rw [groupPointsOf_eq_mapGet _ _ (mapKeys_taggedResults w p).1]
  unfold taggedResults contribution
  cases hc : collected w p.1 p.2 with
  | none => rfl
  | some am =>
    obtain ⟨addr, m⟩ := am
    simp only [mapGet_tagAll]
    cases mapGet m name <;> rfl

theorem flatMap_groupPointsOf_taggedResults (w : World) (ps : List (Nat × String))
    (name : String) :
    (ps.map (taggedResults w)).flatMap (fun group => groupPointsOf group name) =
      ps.flatMap (fun p => contribution w p.1 p.2 name) := by
  induction ps with
  | nil => rfl
  | cons p rest ih =>
    simp only [List.map_cons, List.flatMap_cons] at ih ⊢
    rw [groupPointsOf_taggedResults, ih]

/-- The families after merging the tagged results of a list of servers: the
definitions, in their order, each with the contributions of the servers. -/
theorem coalesce_taggedResults (w : World) (ps : List (Nat × String)) :
    coalesce getFamilyDefinitions (ps.map (taggedResults w)) =
      Except.ok (getFamilyDefinitions.map (fun kv =>
        (kv.1, { kv.2 with Metric := ps.flatMap (fun p => contribution w p.1 p.2 kv.1) }))) := by
  obtain ⟨fams1, hco, hk, hget⟩ := coalesce_ok getFamilyDefinitions (ps.map (taggedResults w))
    (by
      intro group hgroup k hkmem
      obtain ⟨p, _, hp⟩ := List.mem_map.mp hgroup
      subst hp
      exact (mapKeys_taggedResults w p).2 k hkmem)
  rw [hco]
  congr 1
  have hflat := flatMap_groupPointsOf_taggedResults w ps
  have hkeys2 : mapKeys (getFamilyDefinitions.map (fun kv =>
      (kv.1, { kv.2 with Metric := ps.flatMap (fun p => contribution w p.1 p.2 kv.1) }))) =
      mapKeys getFamilyDefinitions := by
    simp [mapKeys, List.map_map, Function.comp_def]
  apply map_ext
  · rw [hk, hkeys2]
  · rw [hk, mapKeys_getFamilyDefinitions]; decide
  · intro k hkmem
    rw [hk, mapKeys_getFamilyDefinitions] at hkmem
    simp only [recognizedNames, List.mem_cons, List.mem_singleton, List.mem_nil_iff,
      or_false] at hkmem
    rcases hkmem with h | h | h | h | h | h | h | h | h <;> subst h <;>
      · rw [hget _ _ (by rfl), hflat]
        rfl

/-- When every configured server collects, `GatherMetrics` returns the
definitions, each with the contributions of the servers in list order. -/
theorem GatherMetrics_all_collected (w : World) (cfgServers servers : List String)
    (hall : ∀ p ∈ List.enumFrom 0 cfgServers, (collected w p.1 p.2).isSome = true) :
    GatherMetrics w cfgServers servers =
      { families := some (getFamilyDefinitions.map (fun kv =>
          { kv.2 with
            Metric := (List.enumFrom 0 cfgServers).flatMap
              (fun p => contribution w p.1 p.2 kv.1) })),
        err := none,
        trace := (List.enumFrom 0 cfgServers).flatMap (fun p => (gatherServer w p.1 p.2).2) } := by
  unfold GatherMetrics
  rw [gatherLoop_all_collected w 0 cfgServers hall]
  simp only [coalesce_taggedResults, List.map_map, Function.comp_def]

/-- A configured server that does not collect makes `GatherMetrics` return an
error that is not the unspecified-point error, and no families. -/
theorem GatherMetrics_not_collected (w : World) (cfgServers servers : List String)
    (p : Nat × String) (hp : p ∈ List.enumFrom 0 cfgServers)
    (hc : collected w p.1 p.2 = none) :
    ∃ e, (GatherMetrics w cfgServers servers).families = none ∧
      (GatherMetrics w cfgServers servers).err = some e ∧
      ∀ g, e ≠ GatherError.unspecifiedPoint g := by
  rcases gatherLoop_result w 0 cfgServers with ⟨e, he, hne, _⟩ | ⟨_, hall⟩
  · have hpair : gatherLoop w 0 cfgServers = (Except.error e, (gatherLoop w 0 cfgServers).2) := by
      rw [← he]
    refine ⟨e, ?_, ?_, hne⟩
    · unfold GatherMetrics; rw [hpair]
    · unfold GatherMetrics; rw [hpair]
  · have := hall p hp
    rw [hc] at this
    exact absurd this (by simp)

/-- The trace of `GatherMetrics` is the trace of its first loop. -/
theorem GatherMetrics_trace (w : World) (cfgServers servers : List String) :
    (GatherMetrics w cfgServers servers).trace = (gatherLoop w 0 cfgServers).2 := by
  unfold GatherMetrics
  cases hl : gatherLoop w 0 cfgServers with
  | mk r tr =>
    cases r with
    | error e => rfl
    | ok metrics =>
      simp only
      cases coalesce getFamilyDefinitions metrics <;> rfl

/-- An error of the first loop is the error of `GatherMetrics`. -/
theorem GatherMetrics_loop_error (w : World) (cfgServers servers : List String)
    (e : GatherError) (h : (gatherLoop w 0 cfgServers).1 = Except.error e) :
    (GatherMetrics w cfgServers servers).families = none ∧
      (GatherMetrics w cfgServers servers).err = some e := by
  have hpair : gatherLoop w 0 cfgServers = (Except.error e, (gatherLoop w 0 cfgServers).2) := by
    rw [← h]
  constructor
  · unfold GatherMetrics; rw [hpair]
  · unfold GatherMetrics; rw [hpair]

theorem serverError_of_not_collected (w : World) (i : Nat) (server : String)
    (h : collected w i server = none) :
    ∃ e, serverError w i server = some e ∧ (gatherServer w i server).1 = Except.error e := by
  obtain ⟨e, he, _⟩ := gatherServer_of_not_collected w i server h
  exact ⟨e, by simp [serverError, he], he⟩

/-- Failures the code reports. When the DSN of a configured server does not
parse, its connection does not open, its query or a row scan returns an error
or a recognized value does not parse, and every server before it collects,
`GatherMetrics` returns no families and the error of that server; the calls
made are those of the servers before it followed by its own, and no event
belongs to a later position of the list. An iteration over rows that is cut
short is not among these failures. -/
theorem GatherMetrics_reported_failure (w : World) (pre post servers : List String) (s : String)
    (hall : ∀ p ∈ List.enumFrom 0 pre, (collected w p.1 p.2).isSome = true)
    (hfail : collected w pre.length s = none) :
    (GatherMetrics w (pre ++ s :: post) servers).families = none ∧
      (∃ e, serverError w pre.length s = some e ∧
        (GatherMetrics w (pre ++ s :: post) servers).err = some e) ∧
      (GatherMetrics w (pre ++ s :: post) servers).trace =
        (List.enumFrom 0 pre).flatMap (fun p => (gatherServer w p.1 p.2).2) ++
          (gatherServer w pre.length s).2 ∧
      ∀ ev ∈ (GatherMetrics w (pre ++ s :: post) servers).trace,
        ∃ p, ev.position = some p ∧ p ≤ pre.length := by
  obtain ⟨e, hse, hge⟩ := serverError_of_not_collected w pre.length s hfail
  have hloop := gatherLoop_first_failure w 0 pre post s e hall (by simpa using hge)
  have herr := GatherMetrics_loop_error w (pre ++ s :: post) servers e (by rw [hloop])
  have htrace : (GatherMetrics w (pre ++ s :: post) servers).trace =
      (List.enumFrom 0 pre).flatMap (fun p => (gatherServer w p.1 p.2).2) ++
        (gatherServer w pre.length s).2 := by
    rw [GatherMetrics_trace, hloop]
    simp
  refine ⟨herr.1, ⟨e, hse, herr.2⟩, htrace, ?_⟩
  intro ev hev
  rw [htrace] at hev
  rcases List.mem_append.mp hev with h | h
  · obtain ⟨p, hp, hmem⟩ := List.mem_flatMap.mp h
    have hpos := gatherServer_trace_position w p.1 p.2 ev hmem
    have hlt := (List.mem_enumFrom hp).2.1
    exact ⟨p.1, hpos, by omega⟩
  · exact ⟨pre.length, gatherServer_trace_position w pre.length s ev h, le_refl _⟩

/-- The row loop does not depend on what `rows.Err()` holds. -/
theorem scanRows_RowsErr (w : World) (f : Nat → DB → Option String)
    (rows : List (Except String (String × String))) (metrics : MetricFamilyMap) :
    scanRows { w with RowsErr := f } rows metrics = scanRows w rows metrics := by
  induction rows generalizing metrics with
  | nil => rfl
  | cons row rest ih =>
    cases row with
    | error err => rfl
    | ok kv =>
      obtain ⟨key, val⟩ := kv
      have hs : statusRow { w with RowsErr := f } metrics key val =
          statusRow w metrics key val := rfl
      cases hr : statusRow w metrics key val with
      | error e => simp [scanRows, hs, hr]
      | ok m1 => simp [scanRows, hs, hr, ih]

/-- The first loop does not depend on what `rows.Err()` holds. -/
theorem gatherLoop_RowsErr (w : World) (f : Nat → DB → Option String) (i : Nat)
    (servers : List String) :
    gatherLoop { w with RowsErr := f } i servers = gatherLoop w i servers := by
  have hfrom : ∀ n db, fromServerStatusVars { w with RowsErr := f } n db =
      fromServerStatusVars w n db := by
    intro n db
    unfold fromServerStatusVars
    cases hq : w.Query n db with
    | error err => simp [hq]
    | ok rows => simp [hq, scanRows_RowsErr]
  have hserver : ∀ n s, gatherServer { w with RowsErr := f } n s = gatherServer w n s := by
    intro n s
    unfold gatherServer
    simp only [hfrom]
  induction servers generalizing i with
  | nil => rfl
  | cons s rest ih => simp only [gatherLoop, hserver, ih]

/-- Whatever `rows.Err()` holds after the iterations, `GatherMetrics` returns
and does the same: the function never reads it. -/
theorem GatherMetrics_RowsErr (w : World) (f : Nat → DB → Option String)
    (cfgServers servers : List String) :
    GatherMetrics { w with RowsErr := f } cfgServers servers =
      GatherMetrics w cfgServers servers := by
  unfold GatherMetrics
  rw [gatherLoop_RowsErr]

/-! ## The claims -/

/-- C1, as stated, fails on large values. A status row Uptime whose value is
the numeral 9223372036854775808 makes `fromServerStatusVars` return an error,
and the numeral 9007199254740993 is recorded as the counter 9007199254740992:
`ParseInt` is bounded by 64 bits and the observation is a `float64`. -/
theorem fromServerStatusVars_large_value_counterexample :
    asciiLower "Uptime" ∈ recognizedNames ∧
      isDecimalNumeral "9223372036854775808" = true ∧
      fromServerStatusVars
          (demoWorld [("dsn", "db:3306", [("Uptime", "9223372036854775808")])] []) 0
          { dsn := "db:3306" } =
        (none, some (StatusError.notInteger "Uptime" "9223372036854775808")) ∧
      isDecimalNumeral "9007199254740993" = true ∧
      decimalValue "9007199254740993" = 9007199254740993 ∧
      fromServerStatusVars
          (demoWorld [("dsn", "db:3306", [("Uptime", "9007199254740993")])] []) 0
          { dsn := "db:3306" } =
        (some [("uptime", [observation MetricType.COUNTER 9007199254740992])], none) := by
  decide

/-- C1 (amended). For a status row whose lower-cased name is one of the nine
recognized names and whose value is a numeral of digits denoting a number below
2^63, the row is stored under the lower-cased name as one unlabelled observation
of the kind `getFamilyDefinitions` declares (gauge for
innodb_row_lock_current_waits, counter for the other eight) whose value is the
`float64` of that number, which is the number itself up to 2^53; when the
collection succeeds and no later row has the same lower-cased name, that is the
entry of the returned map. A recognized row whose value is a numeral of digits
denoting 2^63 or more is rejected: `ParseInt` reports it out of range and
`fromServerStatusVars` returns an error and no map. A row whose lower-cased
name is not one of the nine changes nothing and returns no error, whatever its
value. -/
theorem fromServerStatusVars_classifies_row (w : World) (n : Nat) (db : DB)
    (pre post : List (Except String (String × String))) (key val : String)
    (hq : w.Query n db = Except.ok (pre ++ Except.ok (key, val) :: post)) :
    (w.ToLower key ∈ recognizedNames → isDecimalNumeral val = true →
        decimalValue val < 2 ^ 63 →
        ∃ t, declaredKind (w.ToLower key) = some t ∧
          (t = MetricType.GAUGE ↔ w.ToLower key = "innodb_row_lock_current_waits") ∧
          (∀ metrics, statusRow w metrics key val =
            Except.ok (mapSet metrics (w.ToLower key)
              [observation t (float64 (decimalValue val))])) ∧
          (decimalValue val ≤ 2 ^ 53 → float64 (decimalValue val) = decimalValue val) ∧
          (∀ result, fromServerStatusVars w n db = (some result, none) →
            (∀ k v, Except.ok (k, v) ∈ post → w.ToLower k ≠ w.ToLower key) →
            mapGet result (w.ToLower key) =
              some [observation t (float64 (decimalValue val))])) ∧
      (w.ToLower key ∈ recognizedNames → isDecimalNumeral val = true →
        2 ^ 63 ≤ decimalValue val →
        ParseInt val = Except.error NumError.outOfRange ∧
          (∀ metrics, statusRow w metrics key val =
            Except.error (StatusError.notInteger key val)) ∧
          ∃ e, fromServerStatusVars w n db = (none, some e)) ∧
      (w.ToLower key ∉ recognizedNames →
        (∀ metrics, statusRow w metrics key val = Except.ok metrics) ∧
          fromServerStatusVars w n db = scanRows w (pre ++ post) []) := by
  refine ⟨?_, ?_, ?_⟩
  · intro hname hnum hlt
    have hp := ParseInt_decimal val hnum hlt
    obtain ⟨t, ht, _⟩ := statusRow_recognized w [] key val _ hname hp
    refine ⟨t, ht, ?_, ?_, float64_exact _, ?_⟩
    · rcases (mem_recognizedNames_iff _).mp hname with hc | hg
      · rw [declaredKind_counterCases _ hc] at ht
        injection ht with ht
        subst ht
        constructor
        · intro h; exact MetricType.noConfusion h
        · intro h
          rw [h] at hc
          exact absurd hc gaugeCase_not_counter
      · rw [hg, declaredKind_gaugeCase] at ht
        injection ht with ht
        subst ht
        exact ⟨fun _ => hg, fun _ => rfl⟩
    · intro metrics
      obtain ⟨t1, ht1, hs⟩ := statusRow_recognized w metrics key val _ hname hp
      rw [ht] at ht1
      injection ht1 with ht1
      subst ht1
      exact hs
    · intro result hres hlater
      rw [fromServerStatusVars_of_query w n db _ hq] at hres
      rcases scanRows_cases w pre [] with ⟨m, hm⟩ | ⟨e, he⟩
      · rw [scanRows_append_ok w pre _ [] m hm] at hres
        obtain ⟨t1, ht1, hs⟩ := statusRow_recognized w m key val _ hname hp
        rw [ht] at ht1
        injection ht1 with ht1
        subst ht1
        simp only [scanRows, hs] at hres
        rw [scanRows_other_keys w post _ result (w.ToLower key) hres hlater]
        exact mapGet_mapSet_self _ _ _
      · rw [scanRows_append_error w pre _ [] e he] at hres
        simp at hres
  · intro hname hnum hbig
    have hp := ParseInt_decimal_outOfRange val hnum hbig
    refine ⟨hp, fun metrics => statusRow_notInteger w metrics key val _ hname hp, ?_⟩
    rw [fromServerStatusVars_of_query w n db _ hq]
    exact scanRows_notInteger w _ [] key val _
      (List.mem_append_right _ (List.mem_cons_self _ _)) hname hp
  · intro hname
    refine ⟨fun metrics => statusRow_unrecognized w metrics key val hname, ?_⟩
    rw [fromServerStatusVars_of_query w n db _ hq]
    rcases scanRows_cases w pre [] with ⟨m, hm⟩ | ⟨e, he⟩
    · rw [scanRows_append_ok w pre _ [] m hm, scanRows_append_ok w pre post [] m hm]
      simp only [scanRows, statusRow_unrecognized w m key val hname]
    · rw [scanRows_append_error w pre _ [] e he, scanRows_append_error w pre post [] e he]

/-- C1 at a concrete snapshot: Queries=42 between an unrelated row and Uptime=100. -/
theorem fromServerStatusVars_classifies_row_witness :
    (demoWorld [("dsn", "db:3306", [("Com_select", "7"), ("Queries", "42"), ("Uptime", "100")])]
        []).Query 0 { dsn := "db:3306" } =
        Except.ok ([Except.ok ("Com_select", "7")] ++
          Except.ok ("Queries", "42") :: [Except.ok ("Uptime", "100")]) ∧
      asciiLower "Queries" ∈ recognizedNames ∧ isDecimalNumeral "42" = true ∧
      decimalValue "42" < 2 ^ 63 ∧
      statusRow
          (demoWorld
            [("dsn", "db:3306", [("Com_select", "7"), ("Queries", "42"), ("Uptime", "100")])] [])
          [] "Queries" "42" =
        Except.ok [("queries", [observation MetricType.COUNTER 42])] := by
  refine ⟨by decide, by decide, by decide, by decide, ?_⟩
  have h := (fromServerStatusVars_classifies_row
    (demoWorld [("dsn", "db:3306", [("Com_select", "7"), ("Queries", "42"), ("Uptime", "100")])]
      [])
    0 { dsn := "db:3306" } [Except.ok ("Com_select", "7")] [Except.ok ("Uptime", "100")]
    "Queries" "42" (by decide)).1 (by decide) (by decide) (by decide)
  obtain ⟨t, ht, _, hs, _, _⟩ := h
  have ht2 : t = MetricType.COUNTER := by
    have : declaredKind "queries" = some t := ht
    have h2 : declaredKind "queries" = some MetricType.COUNTER := by decide
    rw [h2] at this
    injection this with this
    exact this.symm
  subst ht2
  exact hs []

/-- C2. When the status snapshot of a server holds a row whose lower-cased name
is one of the nine recognized names and whose value is no base-10 integer
numeral, `fromServerStatusVars` returns an error and no map, whatever the rows
before it, and a run of `GatherMetrics` whose configured list holds that server
returns an error and no families. -/
theorem fromServerStatusVars_rejects_non_integer (w : World) (n : Nat) (db : DB)
    (rows : List (Except String (String × String))) (key val : String)
    (hq : w.Query n db = Except.ok rows) (hmem : Except.ok (key, val) ∈ rows)
    (hname : w.ToLower key ∈ recognizedNames) (hval : isBase10Integer val = false) :
    (∃ e, fromServerStatusVars w n db = (none, some e)) ∧
      ∀ (cfgServers servers : List String) (server : String) (parsed : MysqlConfig),
        (n, server) ∈ List.enumFrom 0 cfgServers →
        w.ParseDSN server = Except.ok parsed →
        w.Open (w.FormatDSN (withDefaultTimeout parsed)) = Except.ok db →
        ∃ e, (GatherMetrics w cfgServers servers).families = none ∧
          (GatherMetrics w cfgServers servers).err = some e := by
  obtain ⟨ne, hne⟩ := ParseInt_not_integer val hval
  have hfail : ∃ e, fromServerStatusVars w n db = (none, some e) := by
    rw [fromServerStatusVars_of_query w n db _ hq]
    exact scanRows_notInteger w rows [] key val ne hmem hname hne
  refine ⟨hfail, ?_⟩
  intro cfgServers servers server parsed hin hparse hopen
  obtain ⟨e, he⟩ := hfail
  have hc : collected w n server = none := by
    simp [collected, hparse, hopen, he]
  obtain ⟨e1, h1, h2, _⟩ := GatherMetrics_not_collected w cfgServers servers (n, server) hin hc
  exact ⟨e1, h1, h2⟩

/-- C2 at a concrete run: Uptime=abc after the valid row Queries=42. -/
theorem fromServerStatusVars_rejects_non_integer_witness :
    fromServerStatusVars badValueWorld 0 { dsn := "db1:3306" } =
        (none, some (StatusError.notInteger "Uptime" "abc")) ∧
      (GatherMetrics badValueWorld ["root@tcp(db1)/mysql", "root@tcp(db2)/mysql"] []).families =
        none ∧
      ∃ e, (GatherMetrics badValueWorld ["root@tcp(db1)/mysql", "root@tcp(db2)/mysql"] []).err =
        some e := by
  have h := fromServerStatusVars_rejects_non_integer badValueWorld 0 { dsn := "db1:3306" }
    [Except.ok ("Queries", "42"), Except.ok ("Uptime", "abc")] "Uptime" "abc"
    (by decide) (by decide) (by decide) (by decide)
  obtain ⟨e, h1, h2⟩ := h.2 ["root@tcp(db1)/mysql", "root@tcp(db2)/mysql"] []
    "root@tcp(db1)/mysql"
    { User := "root", Passwd := "", Net := "tcp", Addr := "db1:3306", DBName := "mysql",
      Timeout := 0 }
    (by decide) (by decide) (by decide)
  exact ⟨by decide, h1, e, h2⟩

/-- C3: the code at the failing input. With `cfg.Servers` empty, as in the
integration test, `GatherMetrics` called on the list holding
root@tcp(localhost)/mysql contacts no server and returns nine families without
any observation, although the server reports all nine variables; the same
server in `cfg.Servers` gives each family one observation labelled
server=localhost:3306, whatever the argument is. -/
theorem GatherMetrics_ignores_argument :
    (GatherMetrics allNineWorld [] ["root@tcp(localhost)/mysql"]).err = none ∧
      (GatherMetrics allNineWorld [] ["root@tcp(localhost)/mysql"]).trace = [] ∧
      (GatherMetrics allNineWorld [] ["root@tcp(localhost)/mysql"]).families =
        some (getFamilyDefinitions.map Prod.snd) ∧
      (∀ fam ∈ getFamilyDefinitions.map Prod.snd, fam.Metric.length = 0) ∧
      ((GatherMetrics allNineWorld ["root@tcp(localhost)/mysql"] []).families.map
          (fun fams => fams.map (fun fam => fam.Metric.map (fun m => m.Label)))) =
        some (List.replicate 9 [[{ Name := "server", Value := "localhost:3306" }]]) := by
  decide

/-- C4. When every server of the configured list collects, the empty list
included, `GatherMetrics` returns no error and nine families which, observations
set aside, are the entries of `getFamilyDefinitions` with their names, help
texts and kinds; a family under whose name no server collected anything is
among them with no observation. -/
theorem GatherMetrics_nine_families (w : World) (cfgServers servers : List String)
    (hall : ∀ p ∈ List.enumFrom 0 cfgServers, (collected w p.1 p.2).isSome = true) :
    ∃ fams, (GatherMetrics w cfgServers servers).families = some fams ∧
      (GatherMetrics w cfgServers servers).err = none ∧
      fams.length = 9 ∧
      (fams.map (fun fam => (fam.Name, { fam with Metric := [] }))).Perm getFamilyDefinitions ∧
      ∀ name ∈ recognizedNames,
        (∀ p ∈ List.enumFrom 0 cfgServers, ∀ addr m,
          collected w p.1 p.2 = some (addr, m) → mapGet m name = none) →
        ∃ fam ∈ fams, fam.Name = name ∧ fam.Metric = [] := by
  rw [GatherMetrics_all_collected w cfgServers servers hall]
  refine ⟨_, rfl, rfl, by simp [getFamilyDefinitions], ?_, ?_⟩
  · rw [List.map_map]
    have : getFamilyDefinitions.map ((fun fam : MetricFamily =>
        (fam.Name, { fam with Metric := [] })) ∘ fun kv : String × MetricFamily =>
          { kv.2 with
            Metric := (List.enumFrom 0 cfgServers).flatMap
              (fun p => contribution w p.1 p.2 kv.1) }) = getFamilyDefinitions := by
      simp [getFamilyDefinitions]
    rw [this]
  · intro name hname hnone
    have hempty : (List.enumFrom 0 cfgServers).flatMap
        (fun p => contribution w p.1 p.2 name) = [] := by
      rw [List.flatMap_eq_nil_iff]
      intro p hp
      unfold contribution
      cases hc : collected w p.1 p.2 with
      | none => rfl
      | some am =>
        obtain ⟨addr, m⟩ := am
        simp only [hnone p hp addr m hc]
    obtain ⟨kv, hkv, hkey, hkn⟩ := getFamilyDefinitions_entry name hname
    refine ⟨_, List.mem_map.mpr ⟨kv, hkv, rfl⟩, ?_, ?_⟩
    · simp only [hkn, hkey]
    · simp only [hkey, hempty]

/-- C4 at the run of the specification: one server reporting Uptime=100,
Queries=42 and fifty unrelated variables gives nine families, uptime with the
value 100, queries with the value 42, the other seven empty. -/
theorem GatherMetrics_nine_families_witness :
    (∀ p ∈ List.enumFrom 0 ["root@tcp(localhost)/mysql"],
        (collected oneServerWorld p.1 p.2).isSome = true) ∧
      (∃ fams, (GatherMetrics oneServerWorld ["root@tcp(localhost)/mysql"] []).families =
          some fams ∧ fams.length = 9) ∧
      ((GatherMetrics oneServerWorld ["root@tcp(localhost)/mysql"] []).families.map
          (fun fams => fams.map (fun fam => (fam.Name, fam.Metric.map (fun m => m.Counter))))) =
        some [("uptime", [some 100]), ("connection_errors_internal", []),
          ("connection_errors_max_connections", []), ("slow_queries", []),
          ("queries", [some 42]), ("innodb_data_fsyncs", []), ("innodb_row_lock_waits", []),
          ("innodb_row_lock_current_waits", []), ("table_locks_waited", [])] := by
  have hall : ∀ p ∈ List.enumFrom 0 ["root@tcp(localhost)/mysql"],
      (collected oneServerWorld p.1 p.2).isSome = true := by decide
  obtain ⟨fams, h1, _, h3, _⟩ :=
    GatherMetrics_nine_families oneServerWorld ["root@tcp(localhost)/mysql"] [] hall
  exact ⟨hall, ⟨fams, h1, h3⟩, by decide⟩

/-- C5. When every server of the configured list collects, the observations of
each returned family are the contributions of the servers in list order; a
server contributes nothing to a family it collected nothing for, and otherwise
one observation of the declared kind whose only label is server = the `Addr` of
its parsed DSN. -/
theorem GatherMetrics_observations_per_server (w : World) (cfgServers servers : List String)
    (hall : ∀ p ∈ List.enumFrom 0 cfgServers, (collected w p.1 p.2).isSome = true) :
    ∃ fams, (GatherMetrics w cfgServers servers).families = some fams ∧
      (GatherMetrics w cfgServers servers).err = none ∧
      (∀ fam ∈ fams, fam.Metric =
        (List.enumFrom 0 cfgServers).flatMap (fun p => contribution w p.1 p.2 fam.Name)) ∧
      ∀ p ∈ List.enumFrom 0 cfgServers, ∀ name,
        ∃ parsed m, w.ParseDSN p.2 = Except.ok parsed ∧
          collected w p.1 p.2 = some (parsed.Addr, m) ∧
          (mapGet m name = none → contribution w p.1 p.2 name = []) ∧
          ∀ pts, mapGet m name = some pts →
            ∃ t v, declaredKind name = some t ∧ pts = [observation t v] ∧
              contribution w p.1 p.2 name =
                [{ observation t v with
                    Label := [{ Name := "server", Value := parsed.Addr }] }] := by
  rw [GatherMetrics_all_collected w cfgServers servers hall]
  refine ⟨_, rfl, rfl, ?_, ?_⟩
  · intro fam hfam
    obtain ⟨kv, hkv, hfk⟩ := List.mem_map.mp hfam
    have hnames : ∀ kv ∈ getFamilyDefinitions, kv.2.Name = kv.1 := by decide
    subst hfk
    simp only [hnames kv hkv]
  · intro p hp name
    have hs := hall p hp
    cases hc : collected w p.1 p.2 with
    | none => simp [hc] at hs
    | some am =>
      obtain ⟨addr, m⟩ := am
      obtain ⟨parsed, hparse, haddr⟩ := collected_Addr w p.1 p.2 addr m hc
      subst haddr
      refine ⟨parsed, m, hparse, rfl, ?_, ?_⟩
      · intro hnone
        simp [contribution, hc, hnone]
      · intro pts hpts
        obtain ⟨t, v, ht, hv⟩ := (collected_StatusMap w p.1 p.2 _ m hc).2 name pts hpts
        refine ⟨t, v, ht, hv, ?_⟩
        subst hv
        simp only [contribution, hc, hpts]
        cases t <;> rfl

/-- C5 at the run of the specification: two servers reporting Uptime=10 and
Uptime=20 give an uptime family of two observations, 10 labelled with the first
address followed by 20 labelled with the second. -/
theorem GatherMetrics_observations_per_server_witness :
    (∀ p ∈ List.enumFrom 0 ["root@tcp(db1)/mysql", "root@tcp(db2)/mysql"],
        (collected twoServerWorld p.1 p.2).isSome = true) ∧
      (∃ fams,
        (GatherMetrics twoServerWorld ["root@tcp(db1)/mysql", "root@tcp(db2)/mysql"] []).families =
          some fams ∧
        ∀ fam ∈ fams, fam.Metric =
          (List.enumFrom 0 ["root@tcp(db1)/mysql", "root@tcp(db2)/mysql"]).flatMap
            (fun p => contribution twoServerWorld p.1 p.2 fam.Name)) ∧
      (List.enumFrom 0 ["root@tcp(db1)/mysql", "root@tcp(db2)/mysql"]).flatMap
          (fun p => contribution twoServerWorld p.1 p.2 "uptime") =
        [ { Label := [{ Name := "server", Value := "db1:3306" }], Gauge := none,
            Counter := some 10 },
          { Label := [{ Name := "server", Value := "db2:3306" }], Gauge := none,
            Counter := some 20 } ] := by
  have hall : ∀ p ∈ List.enumFrom 0 ["root@tcp(db1)/mysql", "root@tcp(db2)/mysql"],
      (collected twoServerWorld p.1 p.2).isSome = true := by decide
  obtain ⟨fams, h1, _, h3, _⟩ := GatherMetrics_observations_per_server twoServerWorld
    ["root@tcp(db1)/mysql", "root@tcp(db2)/mysql"] [] hall
  exact ⟨hall, ⟨fams, h1, h3⟩, by decide⟩

/-- C6: the code at the failing input. The status query of the first of two
configured servers is cut short after its row Uptime=10, so that status
collection fails and `rows.Err()` holds the error; `fromServerStatusVars` never
reads it, and `GatherMetrics` returns no error, goes on to the second server and
returns families built from the truncated snapshot, where the query and scan
errors of the same function end the run. -/
theorem GatherMetrics_interrupted_snapshot :
    interruptedWorld.Query 0 { dsn := "db1:3306" } = Except.ok [Except.ok ("Uptime", "10")] ∧
      interruptedWorld.RowsErr 0 { dsn := "db1:3306" } = some "unexpected EOF" ∧
      fromServerStatusVars interruptedWorld 0 { dsn := "db1:3306" } =
        (some [("uptime", [observation MetricType.COUNTER 10])], none) ∧
      (GatherMetrics interruptedWorld ["root@tcp(db1)/mysql", "root@tcp(db2)/mysql"] []).err =
        none ∧
      ((GatherMetrics interruptedWorld ["root@tcp(db1)/mysql", "root@tcp(db2)/mysql"]
          []).families.map
          (fun fams => fams.map (fun fam => (fam.Name, fam.Metric.map (fun m => m.Counter))))) =
        some [("uptime", [some 10, some 20]), ("connection_errors_internal", []),
          ("connection_errors_max_connections", []), ("slow_queries", []),
          ("queries", []), ("innodb_data_fsyncs", []), ("innodb_row_lock_waits", []),
          ("innodb_row_lock_current_waits", []), ("table_locks_waited", [])] ∧
      (GatherMetrics interruptedWorld ["root@tcp(db1)/mysql", "root@tcp(db2)/mysql"] []).trace =
        [Event.parsedDSN 0 "root@tcp(db1)/mysql", Event.openedDB 0 "db1:3306",
          Event.queried 0 "db1:3306", Event.parsedDSN 1 "root@tcp(db2)/mysql",
          Event.openedDB 1 "db2:3306", Event.queried 1 "db2:3306"] := by
  decide

/-- C7, as stated, fails when the malformed entry is not the first. With a
server that collects followed by an entry that does not parse, the run fails
with the parse error after the first server was opened and queried. -/
theorem GatherMetrics_malformed_entry_counterexample :
    twoServerWorld.ParseDSN "not a dsn" = Except.error "invalid DSN" ∧
      (GatherMetrics twoServerWorld ["root@tcp(db1)/mysql", "not a dsn"] []).err =
        some (GatherError.parsingDSN "invalid DSN") ∧
      (GatherMetrics twoServerWorld ["root@tcp(db1)/mysql", "not a dsn"] []).trace =
        [Event.parsedDSN 0 "root@tcp(db1)/mysql", Event.openedDB 0 "db1:3306",
          Event.queried 0 "db1:3306", Event.parsedDSN 1 "not a dsn"] := by
  decide

/-- C7 (amended). When an entry of the configured list does not parse as a DSN,
the run returns an error and no families, and no connection is opened or
queried for that entry or for any entry after it, whatever the position of the
entry; servers before it may have been contacted. When all servers before it
collect, the error is the parse error of the entry. -/
theorem GatherMetrics_malformed_entry (w : World) (pre post servers : List String)
    (s err : String) (h : w.ParseDSN s = Except.error err) :
    (GatherMetrics w (pre ++ s :: post) servers).families = none ∧
      (∃ e, (GatherMetrics w (pre ++ s :: post) servers).err = some e) ∧
      (∀ ev ∈ (GatherMetrics w (pre ++ s :: post) servers).trace, ev.isConnection = true →
        ∃ p, ev.position = some p ∧ p < pre.length) ∧
      ((∀ p ∈ List.enumFrom 0 pre, (collected w p.1 p.2).isSome = true) →
        (GatherMetrics w (pre ++ s :: post) servers).err =
          some (GatherError.parsingDSN err)) := by
  obtain ⟨⟨e, he⟩, htr⟩ := gatherLoop_malformed w 0 pre post s err h
  have herr := GatherMetrics_loop_error w (pre ++ s :: post) servers e he
  refine ⟨herr.1, ⟨e, herr.2⟩, ?_, ?_⟩
  · intro ev hev hconn
    rw [GatherMetrics_trace] at hev
    obtain ⟨p, hp, hlt⟩ := htr ev hev hconn
    exact ⟨p, hp, by omega⟩
  · intro hall
    have hfail : (gatherServer w (0 + pre.length) s).1 =
        Except.error (GatherError.parsingDSN err) := by
      rw [gatherServer_parse_error w _ s err h]
    have hloop := gatherLoop_first_failure w 0 pre post s _ hall hfail
    exact (GatherMetrics_loop_error w (pre ++ s :: post) servers _ (by rw [hloop])).2

/-- C7 (amended) at a concrete run: the malformed entry is second of three. -/
theorem GatherMetrics_malformed_entry_witness :
    twoServerWorld.ParseDSN "not a dsn" = Except.error "invalid DSN" ∧
      (GatherMetrics twoServerWorld
        (["root@tcp(db1)/mysql"] ++ "not a dsn" :: ["root@tcp(db2)/mysql"]) []).families = none ∧
      ∀ ev ∈ (GatherMetrics twoServerWorld
          (["root@tcp(db1)/mysql"] ++ "not a dsn" :: ["root@tcp(db2)/mysql"]) []).trace,
        ev.isConnection = true → ∃ p, ev.position = some p ∧ p < 1 := by
  have h := GatherMetrics_malformed_entry twoServerWorld ["root@tcp(db1)/mysql"]
    ["root@tcp(db2)/mysql"] [] "not a dsn" "invalid DSN" (by decide)
  exact ⟨by decide, h.1, h.2.2.1⟩

/-- C10. Every name in a map `fromServerStatusVars` returns is a key of
`getFamilyDefinitions`, and `GatherMetrics` never returns the unspecified
metric point error, whatever the servers and their snapshots. -/
theorem GatherMetrics_unspecified_point_unreachable :
    (∀ (w : World) (n : Nat) (db : DB) (m : MetricFamilyMap),
        fromServerStatusVars w n db = (some m, none) →
        ∀ k ∈ mapKeys m, k ∈ mapKeys getFamilyDefinitions) ∧
      ∀ (w : World) (cfgServers servers : List String) (groupName : String),
        (GatherMetrics w cfgServers servers).err ≠
          some (GatherError.unspecifiedPoint groupName) := by
  constructor
  · intro w n db m hm k hk
    rcases fromServerStatusVars_cases w n db with ⟨r, hr, hsm⟩ | ⟨e, he⟩
    · rw [hm] at hr
      simp only [Prod.mk.injEq, Option.some.injEq, and_true] at hr
      subst hr
      obtain ⟨pts, hpts⟩ := mapGet_isSome_of_mem m k hk
      obtain ⟨t, v, ht, _⟩ := hsm.2 k pts hpts
      rw [mapKeys_getFamilyDefinitions]
      exact (declaredKind_isSome_iff k).mp ⟨t, ht⟩
    · rw [hm] at he
      simp at he
  · intro w cfgServers servers groupName
    rcases gatherLoop_result w 0 cfgServers with ⟨e, he, hne, _⟩ | ⟨_, hall⟩
    · rw [(GatherMetrics_loop_error w cfgServers servers e he).2]
      intro hcon
      injection hcon with hcon
      exact hne groupName hcon
    · rw [GatherMetrics_all_collected w cfgServers servers hall]
      simp

/-- C8. With no configured server, `checkArgs` returns the critical state and
the error "expected at least one server", for every TLS setting; it leaves
`cfg` as it is, reads no file, loads no key pair and opens no connection. -/
theorem checkArgs_no_servers (w : World) (cfg : Config) (h : cfg.Servers = []) :
    checkArgs w cfg =
        { state := CheckStateCritical, err := some CheckError.expectedServer, cfg := cfg,
          trace := [] } ∧
      CheckError.text CheckError.expectedServer = some "expected at least one server" ∧
      CheckStateCritical ≠ CheckStateOK := by
  refine ⟨?_, rfl, by decide⟩
  simp [checkArgs, h]

/-- C8 at a concrete configuration with all three TLS paths set. -/
theorem checkArgs_no_servers_witness :
    checkArgs tlsWorld
        { TLSCA := "ca.pem", TLSCert := "client.pem", TLSKey := "client-key.pem",
          InsecureSkipVerify := false, Servers := [], CustomTLSConfig := none } =
      { state := 2, err := some CheckError.expectedServer,
        cfg :=
          { TLSCA := "ca.pem", TLSCert := "client.pem", TLSKey := "client-key.pem",
            InsecureSkipVerify := false, Servers := [], CustomTLSConfig := none },
        trace := [] } :=
  (checkArgs_no_servers tlsWorld
    { TLSCA := "ca.pem", TLSCert := "client.pem", TLSKey := "client-key.pem",
      InsecureSkipVerify := false, Servers := [], CustomTLSConfig := none } rfl).1

/-- C9, as stated, fails for the empty CA path. A certificate path alone, with
no CA path and no key path, makes `TLSConfig` return a profile, where all three
paths empty give no profile. -/
theorem TLSConfig_lone_cert_counterexample :
    CustomTLS.TLSConfig tlsWorld
        { TLSCA := "", TLSCert := "client.pem", TLSKey := "", InsecureSkipVerify := false } =
        ((some { InsecureSkipVerify := false, RootCAs := none, Certificates := [] }, none), []) ∧
      CustomTLS.TLSConfig tlsWorld
        { TLSCA := "", TLSCert := "", TLSKey := "", InsecureSkipVerify := false } =
        ((none, none), []) := by
  decide

/-- C9 (amended). With exactly one of the certificate path and the key path
non-empty, `TLSConfig` loads no key pair. When the CA path is non-empty it
returns what it returns with both paths empty and the other fields unchanged;
when the CA path is empty it returns no error and a profile that holds the
insecure-skip-verify flag, no root pool and no certificate. -/
theorem TLSConfig_lone_cert_or_key (w : World) (c : CustomTLS)
    (hone : (c.TLSCert ≠ "" ∧ c.TLSKey = "") ∨ (c.TLSCert = "" ∧ c.TLSKey ≠ "")) :
    (∀ cert key, Event.loadedKeyPair cert key ∉ (CustomTLS.TLSConfig w c).2) ∧
      (c.TLSCA ≠ "" →
        CustomTLS.TLSConfig w c =
          CustomTLS.TLSConfig w { c with TLSCert := "", TLSKey := "" }) ∧
      (c.TLSCA = "" →
        CustomTLS.TLSConfig w c =
          ((some { InsecureSkipVerify := c.InsecureSkipVerify, RootCAs := none,
                   Certificates := [] }, none), [])) := by
  have hnot : ¬ (c.TLSCert ≠ "" ∧ c.TLSKey ≠ "") := by
    rcases hone with ⟨_, h⟩ | ⟨h, _⟩
    · exact fun hc => hc.2 h
    · exact fun hc => hc.1 h
  have hguard : ¬ (c.TLSCA = "" ∧ c.TLSCert = "" ∧ c.TLSKey = "") := by
    rcases hone with ⟨h, _⟩ | ⟨_, h⟩
    · exact fun hc => h hc.2.1
    · exact fun hc => h hc.2.2
  by_cases hca : c.TLSCA = ""
  · have hval : CustomTLS.TLSConfig w c =
        ((some { InsecureSkipVerify := c.InsecureSkipVerify, RootCAs := none,
                 Certificates := [] }, none), []) := by
      unfold CustomTLS.TLSConfig
      rw [if_neg hguard]
      simp only [hca, ne_eq, not_true_eq_false, if_false]
      rw [if_neg hnot]
    refine ⟨?_, fun h => absurd hca h, fun _ => hval⟩
    intro cert key
    rw [hval]
    simp
  · have hguard2 : ¬ (c.TLSCA = "" ∧ ("" : String) = "" ∧ ("" : String) = "") :=
      fun hc => hca hc.1
    have hnot2 : ¬ (("" : String) ≠ "" ∧ ("" : String) ≠ "") := fun hc => hc.1 rfl
    have hca2 : c.TLSCA ≠ "" := hca
    have hform : CustomTLS.TLSConfig w c =
        (match loadPool w c.TLSCA with
          | ((_, some err), tr) => ((none, some err), tr)
          | ((pool, none), tr) =>
            ((some { InsecureSkipVerify := c.InsecureSkipVerify, RootCAs := pool,
                     Certificates := [] }, none), tr)) := by
      unfold CustomTLS.TLSConfig
      rw [if_neg hguard]
      simp only [if_pos hca2]
      rcases hl : loadPool w c.TLSCA with ⟨⟨pool, err⟩, tr⟩
      cases err with
      | some e => rfl
      | none =>
        simp only []
        rw [if_neg hnot]
    have hform2 : CustomTLS.TLSConfig w { c with TLSCert := "", TLSKey := "" } =
        (match loadPool w c.TLSCA with
          | ((_, some err), tr) => ((none, some err), tr)
          | ((pool, none), tr) =>
            ((some { InsecureSkipVerify := c.InsecureSkipVerify, RootCAs := pool,
                     Certificates := [] }, none), tr)) := by
      unfold CustomTLS.TLSConfig
      simp only []
      rw [if_neg (fun hc => hca hc.1)]
      simp only [if_pos hca2]
      rcases hl : loadPool w c.TLSCA with ⟨⟨pool, err⟩, tr⟩
      cases err with
      | some e => rfl
      | none =>
        simp only []
        rw [if_neg hnot2]
    refine ⟨?_, fun _ => hform.trans hform2.symm, fun h => absurd h hca⟩
    intro cert key
    rw [hform]
    have hpool : ∀ ev ∈ (loadPool w c.TLSCA).2, ev = Event.readFile c.TLSCA := by
      unfold loadPool
      cases w.ReadFile c.TLSCA with
      | error e => simp
      | ok pem =>
        simp only []
        split <;> simp
    rcases hl : loadPool w c.TLSCA with ⟨⟨pool, err⟩, tr⟩
    rw [hl] at hpool
    intro hmem
    cases err with
    | some e =>
      have := hpool _ hmem
      exact Event.noConfusion this
    | none =>
      have := hpool _ hmem
      exact Event.noConfusion this

/-- C9 (amended) at a concrete setting: a CA file that loads and a lone
certificate path. -/
theorem TLSConfig_lone_cert_or_key_witness :
    CustomTLS.TLSConfig tlsWorld
        { TLSCA := "ca.pem", TLSCert := "client.pem", TLSKey := "", InsecureSkipVerify := true } =
      CustomTLS.TLSConfig tlsWorld
        { TLSCA := "ca.pem", TLSCert := "", TLSKey := "", InsecureSkipVerify := true } ∧
      CustomTLS.TLSConfig tlsWorld
        { TLSCA := "ca.pem", TLSCert := "", TLSKey := "", InsecureSkipVerify := true } =
      ((some { InsecureSkipVerify := true, RootCAs := some ["certificate"], Certificates := [] },
        none), [Event.readFile "ca.pem"]) :=
  ⟨(TLSConfig_lone_cert_or_key tlsWorld
      { TLSCA := "ca.pem", TLSCert := "client.pem", TLSKey := "", InsecureSkipVerify := true }
      (Or.inl ⟨by decide, rfl⟩)).2.1 (by decide), by decide⟩

end MysqlCheck
